import Mathlib

/-!
Verification development for the Configuration Document Engine of the
Blog-Config-Tool repository (backend services `YamlService.ts`,
`ConfigService.ts`).

The dynamic JavaScript values manipulated by the engine are modelled by the
inductive type `Value` (JSON-like trees); JavaScript objects are association
lists that keep insertion order, exactly as JS object property order behaves
for string keys.  The repository functions `applyDefaults`, `mergeConfig`,
`updateDocument`, `createBackup`, `readConfig` and `updateConfig` are
translated directly from the TypeScript source.  Third-party code (the `yaml`
npm package) is not part of the repository; where a property depends on it,
the relevant behaviour is modelled from the specification and the definition
says so in its doc comment.
-/

/-- A JavaScript/JSON-like runtime value.  Objects are insertion-ordered
association lists, mirroring JS object property order for string keys.
JavaScript `undefined` is represented by the absence of a key; `null` by
`vnull`. -/
inductive Value where
  | vnull : Value
  | vbool : Bool → Value
  | vint  : Int → Value
  | vstr  : String → Value
  | varr  : List Value → Value
  | vobj  : List (String × Value) → Value

namespace Assoc

/-- Property lookup in an insertion-ordered association list
(JS `obj[k]`, returning `none` for `undefined`). -/
def lookup {κ α : Type} [DecidableEq κ] : List (κ × α) → κ → Option α
  | [], _ => none
  | (k1, v1) :: rest, k => if k1 = k then some v1 else lookup rest k

/-- Property assignment `obj[k] = v`: an existing key keeps its position and
gets the new value, a new key is appended, as in JavaScript. -/
def setKey {κ α : Type} [DecidableEq κ] : List (κ × α) → κ → α → List (κ × α)
  | [], k, v => [(k, v)]
  | (k1, v1) :: rest, k, v =>
    if k1 = k then (k, v) :: rest else (k1, v1) :: setKey rest k v

/-- The JavaScript object spread `{...a, ...b}`: start from `a` and assign
every property of `b` in order. -/
def spreadMerge {κ α : Type} [DecidableEq κ] (a b : List (κ × α)) : List (κ × α) :=
  b.foldl (fun acc p => setKey acc p.1 p.2) a

@[simp]
theorem lookup_nil {κ α : Type} [DecidableEq κ] (k : κ) :
    lookup ([] : List (κ × α)) k = none := rfl

theorem lookup_setKey_self {κ α : Type} [DecidableEq κ]
    (l : List (κ × α)) (k : κ) (v : α) : lookup (setKey l k v) k = some v := by
  induction l with
  | nil => simp [setKey, lookup]
  | cons p rest ih =>
    obtain ⟨k1, v1⟩ := p
    by_cases h : k1 = k
    · simp [setKey, h, lookup]
    · simp [setKey, h, lookup, ih]

theorem lookup_setKey_ne {κ α : Type} [DecidableEq κ]
    (l : List (κ × α)) (k k2 : κ) (v : α) (h : k2 ≠ k) :
    lookup (setKey l k v) k2 = lookup l k2 := by
  have hne : k ≠ k2 := Ne.symm h
  induction l with
  | nil => simp [setKey, lookup, hne]
  | cons p rest ih =>
    obtain ⟨k1, v1⟩ := p
    by_cases hk : k1 = k
    · subst hk
      simp [setKey, lookup, hne]
    · simp [setKey, hk, lookup, ih]

theorem lookup_eq_none_iff {κ α : Type} [DecidableEq κ]
    (l : List (κ × α)) (k : κ) :
    lookup l k = none ↔ k ∉ l.map Prod.fst := by
  induction l with
  | nil => simp
  | cons p rest ih =>
    obtain ⟨k1, v1⟩ := p
    by_cases h : k1 = k
    · subst h; simp [lookup]
    · simp [lookup, h, ih, Ne.symm h]

theorem lookup_spreadMerge_not_mem {κ α : Type} [DecidableEq κ] :
    ∀ (b a : List (κ × α)) (k : κ), lookup b k = none →
      lookup (spreadMerge a b) k = lookup a k := by
  intro b
  induction b with
  | nil => intro a k _; simp [spreadMerge]
  | cons p rest ih =>
    intro a k h
    obtain ⟨k1, v1⟩ := p
    simp only [lookup] at h
    by_cases hk : k1 = k
    · simp [hk] at h
    · simp only [hk, if_false] at h
      have step : spreadMerge a ((k1, v1) :: rest) = spreadMerge (setKey a k1 v1) rest := rfl
      have hk2 : k ≠ k1 := Ne.symm hk
      rw [step, ih (setKey a k1 v1) k h, lookup_setKey_ne _ _ _ _ hk2]

theorem lookup_spreadMerge_some {κ α : Type} [DecidableEq κ] :
    ∀ (b a : List (κ × α)) (k : κ) (v : α),
      (b.map Prod.fst).Nodup → lookup b k = some v →
      lookup (spreadMerge a b) k = some v := by
  intro b
  induction b with
  | nil => intro a k v _ h; simp [lookup] at h
  | cons p rest ih =>
    intro a k v hnd h
    obtain ⟨k1, v1⟩ := p
    simp only [List.map_cons, List.nodup_cons] at hnd
    simp only [lookup] at h
    have step : spreadMerge a ((k1, v1) :: rest) = spreadMerge (setKey a k1 v1) rest := rfl
    by_cases hk : k1 = k
    · subst hk
      simp only [if_true] at h
      have hrest : lookup rest k1 = none := by
        rw [lookup_eq_none_iff]; exact hnd.1
      rw [step, lookup_spreadMerge_not_mem _ _ _ hrest, lookup_setKey_self]
      simpa using h
    · simp only [hk, if_false] at h
      rw [step, ih (setKey a k1 v1) k v hnd.2 h]

end Assoc

/-- JavaScript truthiness of a value (`if (x)`). -/
def truthy : Value → Bool
  | .vnull => false
  | .vbool b => b
  | .vint n => n != 0
  | .vstr s => s ≠ ""
  | .varr _ => true
  | .vobj _ => true

/-- Truthiness of a possibly-`undefined` value. -/
def otruthy : Option Value → Bool
  | none => false
  | some v => truthy v

/-- JavaScript property access `v.k` / `v?.k` where missing properties and
access on non-objects yield `undefined` (`none`). -/
def jsGet : Value → String → Option Value
  | .vobj fs, k => Assoc.lookup fs k
  | _, _ => none

/-- Chained access `v.a?.b` as it appears in `applyDefaults`
(`parsed.footer?.icon`). -/
def jsGet2 (v : Value) (a b : String) : Option Value :=
  match jsGet v a with
  | some w => jsGet w b
  | none => none

/-- The own enumerable properties contributed by `{...v}` for an arbitrary
value: objects contribute their fields, strings their indexed characters,
arrays their indexed elements, primitives nothing — JS spread semantics. -/
def spreadFields : Value → List (String × Value)
  | .vobj fs => fs
  | .vstr s => (s.data.enum).map (fun p => (toString p.1, Value.vstr (String.mk [p.2])))
  | .varr es => (es.enum).map (fun p => (toString p.1, p.2))
  | _ => []

/-- Spread of a possibly-`undefined` value (`{...obj?.field}`). -/
def ospreadFields : Option Value → List (String × Value)
  | none => []
  | some v => spreadFields v

/-- The fields of a value when it is an object, else `[]`. -/
def objFields : Value → List (String × Value)
  | .vobj fs => fs
  | _ => []

/-- Whether a value is a non-array, non-null object
(JS `typeof v === 'object' && !Array.isArray(v) && v !== null`). -/
def isPlainObj : Value → Bool
  | .vobj _ => true
  | _ => false

/-- Two-level lookup: the field `k2` of the object stored at field `k`. -/
def lookup2 (l : List (String × Value)) (k k2 : String) : Option Value :=
  match Assoc.lookup l k with
  | some (.vobj g) => Assoc.lookup g k2
  | _ => none

/-- Default `footer` block of `DEFAULT_CONFIG` (YamlService.ts); `since` is
`new Date().getFullYear()`, modelled by the parameter `year`. -/
def footerDefault (year : Int) : List (String × Value) :=
  [("since", .vint year), ("powered", .vbool true), ("count", .vbool true),
   ("busuanzi", .vbool false),
   ("icon", .vobj [("url", .vstr ""), ("rotate", .vbool false), ("mask", .vbool false)])]

/-- Default `footer.icon` block of `DEFAULT_CONFIG`. -/
def iconDefault : List (String × Value) :=
  [("url", .vstr ""), ("rotate", .vbool false), ("mask", .vbool false)]

/-- Default `reimu_cursor` block of `DEFAULT_CONFIG`. -/
def cursorDefault : List (String × Value) := [("enable", .vbool false)]

/-- Default `dark_mode` block of `DEFAULT_CONFIG`. -/
def darkModeDefault : List (String × Value) :=
  [("enable", .vbool false), ("auto", .vbool false)]

/-- Default `comment` block of `DEFAULT_CONFIG`. -/
def commentDefault : List (String × Value) := [("enable", .vbool false)]

/-- The constant `DEFAULT_CONFIG` table of `YamlService.ts`, as an ordered
field list.  `footer.since` is the current year at module load, passed in as
`year`. -/
def defaultConfig (year : Int) : List (String × Value) :=
  [("menu", .varr []),
   ("mainSections", .varr [.vstr "post"]),
   ("author", .vstr ""),
   ("email", .vstr ""),
   ("description", .vstr ""),
   ("subtitle", .vstr ""),
   ("banner", .vstr ""),
   ("avatar", .vstr ""),
   ("toc", .vbool true),
   ("yearFormat", .vstr "2006"),
   ("monthFormat", .vstr "2006-01"),
   ("dateFormat", .vstr "2006-01-02"),
   ("timeFormat", .vstr "2006-01-02 15:04:05"),
   ("footer", .vobj (footerDefault year)),
   ("sidebar", .vstr "left"),
   ("social", .vobj []),
   ("widgets", .varr []),
   ("reimu_cursor", .vobj cursorDefault),
   ("dark_mode", .vobj darkModeDefault),
   ("comment", .vobj commentDefault),
   ("algolia_search", .vobj [("enable", .vbool false)]),
   ("preloader", .vobj [("enable", .vbool false)]),
   ("animation", .vobj [("enable", .vbool false)]),
   ("firework", .vobj [("enable", .vbool false)]),
   ("article_copyright", .vobj [("enable", .vbool false)]),
   ("sponsor", .vobj [("enable", .vbool false)]),
   ("share", .varr [])]

/-- Conditional property assignment: the shape of each
`if (parsed.x) { result.x = ... }` statement in `applyDefaults`. -/
def condSet (c : Bool) (r : List (String × Value)) (s : String) (x : Value) :
    List (String × Value) :=
  if c then Assoc.setKey r s x else r

/-- The merged `icon` value built inside the `footer` branch of
`applyDefaults`: `{...DEFAULT_CONFIG.footer?.icon, ...parsed.footer?.icon}`. -/
def iconMerged (parsed : Value) : List (String × Value) :=
  Assoc.spreadMerge iconDefault (ospreadFields (jsGet2 parsed "footer" "icon"))

/-- The merged `footer` value of `applyDefaults`:
`{...DEFAULT_CONFIG.footer, ...parsed.footer, icon: ...}` — the explicit
`icon:` entry of the object literal overwrites whatever the spreads left. -/
def footerMerged (year : Int) (parsed : Value) : List (String × Value) :=
  Assoc.setKey
    (Assoc.spreadMerge (footerDefault year) (ospreadFields (jsGet parsed "footer")))
    "icon" (.vobj (iconMerged parsed))

/-- The merged `reimu_cursor` value of `applyDefaults`. -/
def cursorMerged (parsed : Value) : List (String × Value) :=
  Assoc.spreadMerge cursorDefault (ospreadFields (jsGet parsed "reimu_cursor"))

/-- The merged `dark_mode` value of `applyDefaults`. -/
def darkMerged (parsed : Value) : List (String × Value) :=
  Assoc.spreadMerge darkModeDefault (ospreadFields (jsGet parsed "dark_mode"))

/-- `YamlService.applyDefaults`, translated statement by statement from
`YamlService.ts` lines 145-183: a falsy parsed value yields a copy of
`DEFAULT_CONFIG`; otherwise the result is `{...DEFAULT_CONFIG, ...parsed}`
followed by the three conditional deep merges for `footer` (with nested
`icon`), `reimu_cursor` and `dark_mode`, executed in that order. -/
def applyDefaults (year : Int) (parsed : Value) : Value :=
  if truthy parsed = false then .vobj (defaultConfig year)
  else .vobj
    (condSet (otruthy (jsGet parsed "dark_mode"))
      (condSet (otruthy (jsGet parsed "reimu_cursor"))
        (condSet (otruthy (jsGet parsed "footer"))
          (Assoc.spreadMerge (defaultConfig year) (spreadFields parsed))
          "footer" (.vobj (footerMerged year parsed)))
        "reimu_cursor" (.vobj (cursorMerged parsed)))
      "dark_mode" (.vobj (darkMerged parsed)))

/-- One iteration of the `for (const [key, value] of Object.entries(updates))`
loop of `ConfigService.mergeConfig`: skip null/undefined, shallow-spread-merge
plain objects onto plain objects, otherwise assign directly. -/
def mergeStep (result : List (String × Value)) (kv : String × Value) :
    List (String × Value) :=
  match kv with
  | (key, value) =>
    match value with
    | .vnull => result
    | .vobj vfs =>
      match Assoc.lookup result key with
      | some (.vobj cfs) => Assoc.setKey result key (.vobj (Assoc.spreadMerge cfs vfs))
      | _ => Assoc.setKey result key (.vobj vfs)
    | _ => Assoc.setKey result key value

/-- `ConfigService.mergeConfig` (ConfigService.ts lines 178-201): start from a
copy of `current` and fold the update entries through `mergeStep`. -/
def mergeConfig (current updates : List (String × Value)) : List (String × Value) :=
  updates.foldl mergeStep current

/-- Three-level lookup: the field `k3` of the object at field `k2` of the
object at field `k`. -/
def lookup3 (l : List (String × Value)) (k k2 k3 : String) : Option Value :=
  match Assoc.lookup l k with
  | some (.vobj g) => lookup2 g k2 k3
  | _ => none

theorem condSet_lookup_ne (c : Bool) (r : List (String × Value)) (s : String)
    (x : Value) (k : String) (h : k ≠ s) :
    Assoc.lookup (condSet c r s x) k = Assoc.lookup r k := by
  cases c
  · rfl
  · exact Assoc.lookup_setKey_ne _ _ _ _ h

theorem condSet_of_false (c : Bool) (r : List (String × Value)) (s : String)
    (x : Value) (h : c = false) : condSet c r s x = r := by
  simp [condSet, h]

theorem condSet_lookup_self (c : Bool) (r : List (String × Value)) (s : String)
    (x : Value) (h : c = true) :
    Assoc.lookup (condSet c r s x) s = some x := by
  simp [condSet, h, Assoc.lookup_setKey_self]

theorem applyDefaults_obj (year : Int) (fs : List (String × Value)) :
    objFields (applyDefaults year (.vobj fs)) =
      condSet (otruthy (Assoc.lookup fs "dark_mode"))
        (condSet (otruthy (Assoc.lookup fs "reimu_cursor"))
          (condSet (otruthy (Assoc.lookup fs "footer"))
            (Assoc.spreadMerge (defaultConfig year) fs)
            "footer" (.vobj (footerMerged year (.vobj fs))))
          "reimu_cursor" (.vobj (cursorMerged (.vobj fs))))
        "dark_mode" (.vobj (darkMerged (.vobj fs))) := rfl

/-- Core preservation lemma for `applyDefaults`: a field present in the parsed
source is looked up unchanged in the completed value, provided its value does
not trigger one of the three deep-merge branches. -/
theorem applyDefaults_lookup_some (year : Int) (fs : List (String × Value))
    (hnd : (fs.map Prod.fst).Nodup) (k : String) (v : Value)
    (hv : Assoc.lookup fs k = some v)
    (hf : k = "footer" → truthy v = false)
    (hr : k = "reimu_cursor" → truthy v = false)
    (hd : k = "dark_mode" → truthy v = false) :
    Assoc.lookup (objFields (applyDefaults year (.vobj fs))) k = some v := by
  rw [applyDefaults_obj]
  have base : Assoc.lookup (Assoc.spreadMerge (defaultConfig year) fs) k = some v :=
    Assoc.lookup_spreadMerge_some fs (defaultConfig year) k v hnd hv
  by_cases h3 : k = "dark_mode"
  · subst h3
    rw [condSet_of_false _ _ _ _ (by rw [hv]; exact hd rfl)]
    by_cases h2 : ("dark_mode" : String) = "reimu_cursor"
    · exact absurd h2 (by decide)
    · rw [condSet_lookup_ne _ _ _ _ _ h2, condSet_lookup_ne _ _ _ _ _ (by decide)]
      exact base
  · rw [condSet_lookup_ne _ _ _ _ _ h3]
    by_cases h2 : k = "reimu_cursor"
    · subst h2
      rw [condSet_of_false _ _ _ _ (by rw [hv]; exact hr rfl)]
      rw [condSet_lookup_ne _ _ _ _ _ (by decide)]
      exact base
    · rw [condSet_lookup_ne _ _ _ _ _ h2]
      by_cases h1 : k = "footer"
      · subst h1
        rw [condSet_of_false _ _ _ _ (by rw [hv]; exact hf rfl)]
        exact base
      · rw [condSet_lookup_ne _ _ _ _ _ h1]
        exact base

/-- Core default-completion lemma for `applyDefaults`: a field absent from the
parsed source resolves to the `DEFAULT_CONFIG` entry for it. -/
theorem applyDefaults_lookup_none (year : Int) (fs : List (String × Value))
    (k : String) (hv : Assoc.lookup fs k = none) :
    Assoc.lookup (objFields (applyDefaults year (.vobj fs))) k =
      Assoc.lookup (defaultConfig year) k := by
  rw [applyDefaults_obj]
  have base : Assoc.lookup (Assoc.spreadMerge (defaultConfig year) fs) k =
      Assoc.lookup (defaultConfig year) k :=
    Assoc.lookup_spreadMerge_not_mem fs (defaultConfig year) k hv
  by_cases h3 : k = "dark_mode"
  · subst h3
    rw [condSet_of_false _ _ _ _ (by rw [hv]; rfl)]
    rw [condSet_lookup_ne _ _ _ _ _ (by decide), condSet_lookup_ne _ _ _ _ _ (by decide)]
    exact base
  · rw [condSet_lookup_ne _ _ _ _ _ h3]
    by_cases h2 : k = "reimu_cursor"
    · subst h2
      rw [condSet_of_false _ _ _ _ (by rw [hv]; rfl)]
      rw [condSet_lookup_ne _ _ _ _ _ (by decide)]
      exact base
    · rw [condSet_lookup_ne _ _ _ _ _ h2]
      by_cases h1 : k = "footer"
      · subst h1
        rw [condSet_of_false _ _ _ _ (by rw [hv]; rfl)]
        exact base
      · rw [condSet_lookup_ne _ _ _ _ _ h1]
        exact base

/-- Lookup of a deep-merged group field after `applyDefaults`, when that group
is present in the source as an object. -/
theorem applyDefaults_lookup_footer (year : Int) (fs : List (String × Value))
    (g : List (String × Value)) (hv : Assoc.lookup fs "footer" = some (.vobj g)) :
    Assoc.lookup (objFields (applyDefaults year (.vobj fs))) "footer" =
      some (.vobj (footerMerged year (.vobj fs))) := by
  rw [applyDefaults_obj]
  rw [condSet_lookup_ne _ _ _ _ _ (by decide), condSet_lookup_ne _ _ _ _ _ (by decide)]
  exact condSet_lookup_self _ _ _ _ (by rw [hv]; rfl)

theorem applyDefaults_lookup_cursor (year : Int) (fs : List (String × Value))
    (g : List (String × Value)) (hv : Assoc.lookup fs "reimu_cursor" = some (.vobj g)) :
    Assoc.lookup (objFields (applyDefaults year (.vobj fs))) "reimu_cursor" =
      some (.vobj (cursorMerged (.vobj fs))) := by
  rw [applyDefaults_obj]
  rw [condSet_lookup_ne _ _ _ _ _ (by decide)]
  exact condSet_lookup_self _ _ _ _ (by rw [hv]; rfl)

theorem applyDefaults_lookup_dark (year : Int) (fs : List (String × Value))
    (g : List (String × Value)) (hv : Assoc.lookup fs "dark_mode" = some (.vobj g)) :
    Assoc.lookup (objFields (applyDefaults year (.vobj fs))) "dark_mode" =
      some (.vobj (darkMerged (.vobj fs))) := by
  rw [applyDefaults_obj]
  exact condSet_lookup_self _ _ _ _ (by rw [hv]; rfl)

theorem lookup2_eq (l : List (String × Value)) (k : String)
    (g : List (String × Value)) (h : Assoc.lookup l k = some (.vobj g))
    (k2 : String) : lookup2 l k k2 = Assoc.lookup g k2 := by
  unfold lookup2; rw [h]

theorem lookup3_eq (l : List (String × Value)) (k : String)
    (g : List (String × Value)) (h : Assoc.lookup l k = some (.vobj g))
    (k2 k3 : String) : lookup3 l k k2 k3 = lookup2 g k2 k3 := by
  unfold lookup3; rw [h]

/-- C2: for every parsed source (an object with distinct keys, whose deep-merge
group fields `footer`, `reimu_cursor`, `dark_mode` are — as in every
`BlogConfig`-shaped file — either absent, falsy, or nested objects), the
completed value of `applyDefaults` (1) preserves unchanged every present
defined non-null field, observed at leaf level (top-level fields directly, and
for the deep-merged groups their present child fields, including
`footer.icon`'s children), and (2) resolves every field absent from the source
to the `DEFAULT_CONFIG` entry for it. -/
theorem c2_defaults_preserve_and_complete (year : Int) (fs : List (String × Value))
    (hnd : (fs.map Prod.fst).Nodup) :
    (∀ k v, Assoc.lookup fs k = some v → v ≠ .vnull →
       (k = "footer" → truthy v = false) →
       (k = "reimu_cursor" → truthy v = false) →
       (k = "dark_mode" → truthy v = false) →
       Assoc.lookup (objFields (applyDefaults year (.vobj fs))) k = some v)
  ∧ (∀ k g, (k = "footer" ∨ k = "reimu_cursor" ∨ k = "dark_mode") →
       Assoc.lookup fs k = some (.vobj g) → (g.map Prod.fst).Nodup →
       ∀ k2 w, Assoc.lookup g k2 = some w → (k = "footer" → k2 ≠ "icon") →
         lookup2 (objFields (applyDefaults year (.vobj fs))) k k2 = some w)
  ∧ (∀ g ifs, Assoc.lookup fs "footer" = some (.vobj g) →
       Assoc.lookup g "icon" = some (.vobj ifs) → (ifs.map Prod.fst).Nodup →
       ∀ k3 w, Assoc.lookup ifs k3 = some w →
         lookup3 (objFields (applyDefaults year (.vobj fs))) "footer" "icon" k3 = some w)
  ∧ (∀ k, Assoc.lookup fs k = none →
       Assoc.lookup (objFields (applyDefaults year (.vobj fs))) k =
         Assoc.lookup (defaultConfig year) k) := by
  refine ⟨?_, ?_, ?_, ?_⟩
  · intro k v hv hvn hf hr hd
    exact applyDefaults_lookup_some year fs hnd k v hv hf hr hd
  · intro k g hk hv hgnd k2 w hw hicon
    rcases hk with rfl | rfl | rfl
    · rw [lookup2_eq _ _ _ (applyDefaults_lookup_footer year fs g hv)]
      rw [footerMerged, Assoc.lookup_setKey_ne _ _ _ _ (hicon rfl)]
      have hsf : ospreadFields (jsGet (.vobj fs) "footer") = g := by
        simp [jsGet, hv, ospreadFields, spreadFields]
      rw [hsf]
      exact Assoc.lookup_spreadMerge_some g _ k2 w hgnd hw
    · rw [lookup2_eq _ _ _ (applyDefaults_lookup_cursor year fs g hv)]
      have hsf : ospreadFields (jsGet (.vobj fs) "reimu_cursor") = g := by
        simp [jsGet, hv, ospreadFields, spreadFields]
      rw [cursorMerged, hsf]
      exact Assoc.lookup_spreadMerge_some g _ k2 w hgnd hw
    · rw [lookup2_eq _ _ _ (applyDefaults_lookup_dark year fs g hv)]
      have hsf : ospreadFields (jsGet (.vobj fs) "dark_mode") = g := by
        simp [jsGet, hv, ospreadFields, spreadFields]
      rw [darkMerged, hsf]
      exact Assoc.lookup_spreadMerge_some g _ k2 w hgnd hw
  · intro g ifs hv hicon hind k3 w hw
    rw [lookup3_eq _ _ _ (applyDefaults_lookup_footer year fs g hv)]
    rw [footerMerged] at *
    rw [lookup2_eq _ _ _ (Assoc.lookup_setKey_self _ _ _)]
    have hsf : ospreadFields (jsGet2 (.vobj fs) "footer" "icon") = ifs := by
      simp [jsGet2, jsGet, hv, hicon, ospreadFields, spreadFields]
    rw [iconMerged, hsf]
    exact Assoc.lookup_spreadMerge_some ifs _ k3 w hind hw
  · intro k hv
    exact applyDefaults_lookup_none year fs k hv

/-- Witness for C2 at the minimal source of the specification scenario:
only `author` and `email` present; present fields are preserved and the
missing `toc`, `sidebar` and `footer` resolve to the defaults. -/
theorem c2_defaults_preserve_and_complete_witness :
    Assoc.lookup (objFields (applyDefaults 2026
        (.vobj [("author", .vstr "A"), ("email", .vstr "a@x.com")]))) "author"
      = some (.vstr "A")
  ∧ Assoc.lookup (objFields (applyDefaults 2026
        (.vobj [("author", .vstr "A"), ("email", .vstr "a@x.com")]))) "toc"
      = some (.vbool true)
  ∧ Assoc.lookup (objFields (applyDefaults 2026
        (.vobj [("author", .vstr "A"), ("email", .vstr "a@x.com")]))) "sidebar"
      = some (.vstr "left")
  ∧ Assoc.lookup (objFields (applyDefaults 2026
        (.vobj [("author", .vstr "A"), ("email", .vstr "a@x.com")]))) "footer"
      = some (.vobj (footerDefault 2026)) := by
  have h := c2_defaults_preserve_and_complete 2026
    [("author", .vstr "A"), ("email", .vstr "a@x.com")] (by decide)
  refine ⟨?_, ?_, ?_, ?_⟩
  · exact h.1 "author" (.vstr "A") rfl (fun hh => Value.noConfusion hh)
      (fun hh => absurd hh (by decide)) (fun hh => absurd hh (by decide))
      (fun hh => absurd hh (by decide))
  · exact (h.2.2.2 "toc" rfl).trans rfl
  · exact (h.2.2.2 "sidebar" rfl).trans rfl
  · exact (h.2.2.2 "footer" rfl).trans rfl

/-- The C3 counterexample input: a source whose `comment` group carries only a
`use` child. -/
def c3Input : Value := .vobj [("comment", .vobj [("use", .vstr "waline")])]

/-- C3 counterexample: the claim says every nested group of the DefaultTable is
overlaid field-by-field, so `comment.enable` should resolve to the default
`false`; in fact `applyDefaults` replaces the whole `comment` group with the
input's group, and the default child `enable` is dropped. -/
theorem c3_group_overlay_counterexample :
    Assoc.lookup (objFields (applyDefaults 2026 c3Input)) "comment"
      = some (.vobj [("use", .vstr "waline")])
  ∧ lookup2 (objFields (applyDefaults 2026 c3Input)) "comment" "enable" = none
  ∧ Assoc.lookup commentDefault "enable" = some (.vbool false) :=
  ⟨rfl, rfl, rfl⟩

/-- C3 as amended: only `footer` (with its nested `icon`), `reimu_cursor` and
`dark_mode` are overlaid field-by-field on the defaults (a child absent from
the input retains the DefaultTable's child value); the other nested groups of
the DefaultTable (`comment`, `algolia_search`, `preloader`, `animation`,
`firework`, `article_copyright`, `sponsor`) are replaced wholesale by the
input's group, dropping default children. -/
theorem c3_group_overlay_amended (year : Int) (fs : List (String × Value))
    (hnd : (fs.map Prod.fst).Nodup) :
    (∀ g, Assoc.lookup fs "footer" = some (.vobj g) →
       (∀ k2, k2 ≠ "icon" → Assoc.lookup g k2 = none →
          lookup2 (objFields (applyDefaults year (.vobj fs))) "footer" k2 =
            Assoc.lookup (footerDefault year) k2)
     ∧ (Assoc.lookup g "icon" = none →
          lookup2 (objFields (applyDefaults year (.vobj fs))) "footer" "icon" =
            some (.vobj iconDefault)))
  ∧ (∀ g, Assoc.lookup fs "reimu_cursor" = some (.vobj g) →
       ∀ k2, Assoc.lookup g k2 = none →
         lookup2 (objFields (applyDefaults year (.vobj fs))) "reimu_cursor" k2 =
           Assoc.lookup cursorDefault k2)
  ∧ (∀ g, Assoc.lookup fs "dark_mode" = some (.vobj g) →
       ∀ k2, Assoc.lookup g k2 = none →
         lookup2 (objFields (applyDefaults year (.vobj fs))) "dark_mode" k2 =
           Assoc.lookup darkModeDefault k2)
  ∧ (∀ k g, (k = "comment" ∨ k = "algolia_search" ∨ k = "preloader" ∨
             k = "animation" ∨ k = "firework" ∨ k = "article_copyright" ∨
             k = "sponsor") →
       Assoc.lookup fs k = some (.vobj g) →
       Assoc.lookup (objFields (applyDefaults year (.vobj fs))) k = some (.vobj g)) := by
  refine ⟨?_, ?_, ?_, ?_⟩
  · intro g hv
    have hsf : ospreadFields (jsGet (.vobj fs) "footer") = g := by
      simp [jsGet, hv, ospreadFields, spreadFields]
    constructor
    · intro k2 hk2 habsent
      rw [lookup2_eq _ _ _ (applyDefaults_lookup_footer year fs g hv)]
      rw [footerMerged, Assoc.lookup_setKey_ne _ _ _ _ hk2, hsf]
      exact Assoc.lookup_spreadMerge_not_mem g _ k2 habsent
    · intro habsent
      rw [lookup2_eq _ _ _ (applyDefaults_lookup_footer year fs g hv)]
      rw [footerMerged, Assoc.lookup_setKey_self]
      have hicon : jsGet2 (.vobj fs) "footer" "icon" = none := by
        simp [jsGet2, jsGet, hv, habsent]
      rw [iconMerged, hicon]
      rfl
  · intro g hv k2 habsent
    have hsf : ospreadFields (jsGet (.vobj fs) "reimu_cursor") = g := by
      simp [jsGet, hv, ospreadFields, spreadFields]
    rw [lookup2_eq _ _ _ (applyDefaults_lookup_cursor year fs g hv), cursorMerged, hsf]
    exact Assoc.lookup_spreadMerge_not_mem g _ k2 habsent
  · intro g hv k2 habsent
    have hsf : ospreadFields (jsGet (.vobj fs) "dark_mode") = g := by
      simp [jsGet, hv, ospreadFields, spreadFields]
    rw [lookup2_eq _ _ _ (applyDefaults_lookup_dark year fs g hv), darkMerged, hsf]
    exact Assoc.lookup_spreadMerge_not_mem g _ k2 habsent
  · intro k g hk hv
    have step : Assoc.lookup (objFields (applyDefaults year (.vobj fs))) k =
        Assoc.lookup (Assoc.spreadMerge (defaultConfig year) fs) k := by
      rw [applyDefaults_obj]
      rcases hk with rfl | rfl | rfl | rfl | rfl | rfl | rfl <;>
        rw [condSet_lookup_ne _ _ _ _ _ (by decide),
            condSet_lookup_ne _ _ _ _ _ (by decide),
            condSet_lookup_ne _ _ _ _ _ (by decide)]
    rw [step]
    exact Assoc.lookup_spreadMerge_some fs _ k _ hnd hv

/-- Witness for the amended C3: a source giving one `footer` child and a
partial `comment` group; `footer.powered` keeps its default while the
`comment` group is replaced wholesale. -/
theorem c3_group_overlay_amended_witness :
    lookup2 (objFields (applyDefaults 2026
        (.vobj [("footer", .vobj [("since", .vint 2020)]),
                ("comment", .vobj [("use", .vstr "w")])]))) "footer" "powered"
      = some (.vbool true)
  ∧ Assoc.lookup (objFields (applyDefaults 2026
        (.vobj [("footer", .vobj [("since", .vint 2020)]),
                ("comment", .vobj [("use", .vstr "w")])]))) "comment"
      = some (.vobj [("use", .vstr "w")]) := by
  have h := c3_group_overlay_amended 2026
    [("footer", .vobj [("since", .vint 2020)]),
     ("comment", .vobj [("use", .vstr "w")])] (by decide)
  refine ⟨?_, ?_⟩
  · exact (((h.1 [("since", .vint 2020)] rfl).1 "powered" (by decide) rfl).trans rfl)
  · exact h.2.2.2 "comment" [("use", .vstr "w")] (Or.inl rfl) rfl

/-- C10: a recognized field present with an explicit null in the parsed source
stays null in the completed value — the null overrides and suppresses the
default — while an absent field resolves to the DefaultTable's value. -/
theorem c10_explicit_null_suppresses_default (year : Int)
    (fs : List (String × Value)) (hnd : (fs.map Prod.fst).Nodup) :
    (∀ k, Assoc.lookup fs k = some .vnull →
       Assoc.lookup (objFields (applyDefaults year (.vobj fs))) k = some .vnull)
  ∧ (∀ k, Assoc.lookup fs k = none →
       Assoc.lookup (objFields (applyDefaults year (.vobj fs))) k =
         Assoc.lookup (defaultConfig year) k) := by
  constructor
  · intro k hv
    exact applyDefaults_lookup_some year fs hnd k .vnull hv
      (fun _ => rfl) (fun _ => rfl) (fun _ => rfl)
  · intro k hv
    exact applyDefaults_lookup_none year fs k hv

/-- Witness for C10: `toc: null` stays null (the default `true` is
suppressed), while the absent `sidebar` receives its default. -/
theorem c10_explicit_null_suppresses_default_witness :
    Assoc.lookup (objFields (applyDefaults 2026 (.vobj [("toc", .vnull)]))) "toc"
      = some .vnull
  ∧ Assoc.lookup (objFields (applyDefaults 2026 (.vobj [("toc", .vnull)]))) "sidebar"
      = some (.vstr "left") := by
  have h := c10_explicit_null_suppresses_default 2026 [("toc", .vnull)] (by decide)
  exact ⟨h.1 "toc" rfl, (h.2 "sidebar" rfl).trans rfl⟩

theorem mergeStep_lookup_ne (acc : List (String × Value)) (k1 : String)
    (v1 : Value) (k : String) (h : k ≠ k1) :
    Assoc.lookup (mergeStep acc (k1, v1)) k = Assoc.lookup acc k := by
  cases v1 with
  | vnull => rfl
  | vobj vfs =>
    simp only [mergeStep]
    cases hcv : Assoc.lookup acc k1 with
    | none => exact Assoc.lookup_setKey_ne _ _ _ _ h
    | some cv =>
      cases cv <;> exact Assoc.lookup_setKey_ne _ _ _ _ h
  | vbool b => exact Assoc.lookup_setKey_ne _ _ _ _ h
  | vint n => exact Assoc.lookup_setKey_ne _ _ _ _ h
  | vstr s => exact Assoc.lookup_setKey_ne _ _ _ _ h
  | varr es => exact Assoc.lookup_setKey_ne _ _ _ _ h

theorem mergeFold_lookup_not_mem :
    ∀ (l : List (String × Value)) (acc : List (String × Value)) (k : String),
      Assoc.lookup l k = none →
      Assoc.lookup (l.foldl mergeStep acc) k = Assoc.lookup acc k := by
  intro l
  induction l with
  | nil => intro acc k _; rfl
  | cons p rest ih =>
    intro acc k h
    obtain ⟨k1, v1⟩ := p
    simp only [Assoc.lookup] at h
    by_cases hk : k1 = k
    · simp [hk] at h
    · simp only [hk, if_false] at h
      rw [List.foldl_cons, ih _ k h, mergeStep_lookup_ne _ _ _ _ (Ne.symm hk)]

theorem lookup_split {κ α : Type} [DecidableEq κ] :
    ∀ (l : List (κ × α)) (k : κ) (v : α), Assoc.lookup l k = some v →
      ∃ l1 l2, l = l1 ++ (k, v) :: l2 ∧ Assoc.lookup l1 k = none := by
  intro l
  induction l with
  | nil => intro k v h; simp [Assoc.lookup] at h
  | cons p rest ih =>
    intro k v h
    obtain ⟨k1, v1⟩ := p
    simp only [Assoc.lookup] at h
    by_cases hk : k1 = k
    · subst hk
      simp only [if_true] at h
      obtain rfl : v1 = v := Option.some.inj h
      exact ⟨[], rest, rfl, rfl⟩
    · simp only [hk, if_false] at h
      obtain ⟨l1, l2, heq, hnone⟩ := ih k v h
      refine ⟨(k1, v1) :: l1, l2, by rw [heq]; rfl, ?_⟩
      simp [Assoc.lookup, hk, hnone]

/-- The value of `mergeConfig` at a key carried by the update list with
distinct keys: the whole merge reduces to the single `mergeStep` for that key,
evaluated against the original `current`. -/
theorem mergeConfig_lookup_eq_step (current updates : List (String × Value))
    (hnd : (updates.map Prod.fst).Nodup) (k : String) (v : Value)
    (h : Assoc.lookup updates k = some v) :
    Assoc.lookup (mergeConfig current updates) k =
      Assoc.lookup (mergeStep current (k, v)) k := by
  obtain ⟨l1, l2, heq, hnone⟩ := lookup_split updates k v h
  subst heq
  have hk1 : k ∉ l1.map Prod.fst := (Assoc.lookup_eq_none_iff l1 k).mp hnone
  have hnd2 : k ∉ l2.map Prod.fst := by
    have h2 := hnd
    simp only [List.map_append, List.map_cons, List.nodup_append] at h2
    exact (List.nodup_cons.mp h2.2.1).1
  have hl2 : Assoc.lookup l2 k = none := (Assoc.lookup_eq_none_iff l2 k).mpr hnd2
  unfold mergeConfig
  rw [List.foldl_append, List.foldl_cons, mergeFold_lookup_not_mem l2 _ k hl2]
  have hacc : Assoc.lookup (l1.foldl mergeStep current) k = Assoc.lookup current k :=
    mergeFold_lookup_not_mem l1 current k hnone
  cases v with
  | vnull => simp only [mergeStep]; rw [hacc]
  | vobj vfs =>
    simp only [mergeStep]
    rw [hacc]
    cases hcv : Assoc.lookup current k with
    | none => rw [Assoc.lookup_setKey_self, Assoc.lookup_setKey_self]
    | some cv =>
      cases cv <;> rw [Assoc.lookup_setKey_self, Assoc.lookup_setKey_self]
  | vbool b =>
    simp only [mergeStep]
    rw [Assoc.lookup_setKey_self, Assoc.lookup_setKey_self]
  | vint n =>
    simp only [mergeStep]
    rw [Assoc.lookup_setKey_self, Assoc.lookup_setKey_self]
  | vstr s =>
    simp only [mergeStep]
    rw [Assoc.lookup_setKey_self, Assoc.lookup_setKey_self]
  | varr es =>
    simp only [mergeStep]
    rw [Assoc.lookup_setKey_self, Assoc.lookup_setKey_self]

/-- C4: `mergeConfig` semantics field by field, for an update list with
distinct keys.  A field absent from the update, or present as null, leaves the
current value untouched; a non-object (list, boolean, number, string) value
fully replaces; an object value whose current counterpart is not a plain
object fully replaces; and an object value over a plain-object current
counterpart is merged exactly one level (the update's sub-fields win,
sub-fields absent from the update are retained from current). -/
theorem c4_merge_semantics (current updates : List (String × Value))
    (hnd : (updates.map Prod.fst).Nodup) :
    (∀ k, (Assoc.lookup updates k = none ∨ Assoc.lookup updates k = some .vnull) →
       Assoc.lookup (mergeConfig current updates) k = Assoc.lookup current k)
  ∧ (∀ k v, Assoc.lookup updates k = some v → v ≠ .vnull → isPlainObj v = false →
       Assoc.lookup (mergeConfig current updates) k = some v)
  ∧ (∀ k vfs, Assoc.lookup updates k = some (.vobj vfs) →
       (∀ cfs, Assoc.lookup current k ≠ some (.vobj cfs)) →
       Assoc.lookup (mergeConfig current updates) k = some (.vobj vfs))
  ∧ (∀ k vfs cfs, Assoc.lookup updates k = some (.vobj vfs) →
       Assoc.lookup current k = some (.vobj cfs) → (vfs.map Prod.fst).Nodup →
       ∀ k2, (∀ w, Assoc.lookup vfs k2 = some w →
                lookup2 (mergeConfig current updates) k k2 = some w)
           ∧ (Assoc.lookup vfs k2 = none →
                lookup2 (mergeConfig current updates) k k2 = Assoc.lookup cfs k2)) := by
  refine ⟨?_, ?_, ?_, ?_⟩
  · intro k h
    rcases h with h | h
    · exact mergeFold_lookup_not_mem updates current k h
    · rw [mergeConfig_lookup_eq_step current updates hnd k .vnull h]
      rfl
  · intro k v h hvn hobj
    rw [mergeConfig_lookup_eq_step current updates hnd k v h]
    cases v with
    | vnull => exact absurd rfl hvn
    | vobj vfs => simp [isPlainObj] at hobj
    | vbool b => exact Assoc.lookup_setKey_self _ _ _
    | vint n => exact Assoc.lookup_setKey_self _ _ _
    | vstr s => exact Assoc.lookup_setKey_self _ _ _
    | varr es => exact Assoc.lookup_setKey_self _ _ _
  · intro k vfs h hcur
    rw [mergeConfig_lookup_eq_step current updates hnd k _ h]
    simp only [mergeStep]
    cases hcv : Assoc.lookup current k with
    | none => exact Assoc.lookup_setKey_self _ _ _
    | some cv =>
      cases cv with
      | vobj cfs => exact absurd hcv (hcur cfs)
      | vnull => exact Assoc.lookup_setKey_self _ _ _
      | vbool b => exact Assoc.lookup_setKey_self _ _ _
      | vint n => exact Assoc.lookup_setKey_self _ _ _
      | vstr s => exact Assoc.lookup_setKey_self _ _ _
      | varr es => exact Assoc.lookup_setKey_self _ _ _
  · intro k vfs cfs h hcur hvnd k2
    have hmain : Assoc.lookup (mergeConfig current updates) k =
        some (.vobj (Assoc.spreadMerge cfs vfs)) := by
      rw [mergeConfig_lookup_eq_step current updates hnd k _ h]
      simp only [mergeStep, hcur]
      exact Assoc.lookup_setKey_self _ _ _
    constructor
    · intro w hw
      rw [lookup2_eq _ _ _ hmain]
      exact Assoc.lookup_spreadMerge_some vfs cfs k2 w hvnd hw
    · intro hnone
      rw [lookup2_eq _ _ _ hmain]
      exact Assoc.lookup_spreadMerge_not_mem vfs cfs k2 hnone

/-- Witness for C4 on a concrete current/update pair: a scalar replaces, an
object merges one level retaining absent sub-fields, an untouched field stays,
and a null update leaves the current value alone. -/
theorem c4_merge_semantics_witness :
    Assoc.lookup (mergeConfig
        [("author", .vstr "A"), ("email", .vstr "e"),
         ("footer", .vobj [("since", .vint 2020), ("powered", .vbool true)])]
        [("author", .vstr "B"), ("footer", .vobj [("since", .vint 2021)]),
         ("email", .vnull)]) "author" = some (.vstr "B")
  ∧ lookup2 (mergeConfig
        [("author", .vstr "A"), ("email", .vstr "e"),
         ("footer", .vobj [("since", .vint 2020), ("powered", .vbool true)])]
        [("author", .vstr "B"), ("footer", .vobj [("since", .vint 2021)]),
         ("email", .vnull)]) "footer" "since" = some (.vint 2021)
  ∧ lookup2 (mergeConfig
        [("author", .vstr "A"), ("email", .vstr "e"),
         ("footer", .vobj [("since", .vint 2020), ("powered", .vbool true)])]
        [("author", .vstr "B"), ("footer", .vobj [("since", .vint 2021)]),
         ("email", .vnull)]) "footer" "powered" = some (.vbool true)
  ∧ Assoc.lookup (mergeConfig
        [("author", .vstr "A"), ("email", .vstr "e"),
         ("footer", .vobj [("since", .vint 2020), ("powered", .vbool true)])]
        [("author", .vstr "B"), ("footer", .vobj [("since", .vint 2021)]),
         ("email", .vnull)]) "email" = some (.vstr "e") := by
  have h := c4_merge_semantics
    [("author", .vstr "A"), ("email", .vstr "e"),
     ("footer", .vobj [("since", .vint 2020), ("powered", .vbool true)])]
    [("author", .vstr "B"), ("footer", .vobj [("since", .vint 2021)]),
     ("email", .vnull)] (by decide)
  refine ⟨?_, ?_, ?_, ?_⟩
  · exact h.2.1 "author" (.vstr "B") rfl (fun hh => Value.noConfusion hh) rfl
  · exact ((h.2.2.2 "footer" [("since", .vint 2021)]
      [("since", .vint 2020), ("powered", .vbool true)] rfl rfl (by decide)
      "since").1 (.vint 2021) rfl)
  · exact ((h.2.2.2 "footer" [("since", .vint 2021)]
      [("since", .vint 2020), ("powered", .vbool true)] rfl rfl (by decide)
      "powered").2 rfl).trans rfl
  · exact h.1 "email" (Or.inr rfl)

/-- Filesystem paths, modelled as component lists: `path.join(a, b, c)` is the
list `[a, b, c]` (the configured blog root stays one opaque component). -/
abbrev FPath := List String

/-- The filesystem as a map from paths to file contents; directories are not
represented (`mkdir` has no observable effect on the file map). -/
abbrev FileSys := List (FPath × String)

/-- `ConfigService.getParamsPath`: `<blogPath>/config/_default/params.yml`,
or null when no blog path is configured. -/
def getParamsPath (blogPath : Option String) : Option FPath :=
  blogPath.map (fun bp => [bp, "config", "_default", "params.yml"])

/-- `ConfigService.getBackupDir`: `<blogPath>/config/_default/backups`. -/
def getBackupDir (blogPath : Option String) : Option FPath :=
  blogPath.map (fun bp => [bp, "config", "_default", "backups"])

/-- `ConfigService.generateBackupFilename`: `params.yml.backup.<timestamp>`;
the formatted wall-clock timestamp is supplied as `ts`. -/
def generateBackupFilename (ts : String) : String :=
  "params.yml.backup." ++ ts

/-- `ConfigService.createBackup`: fail when no blog path is configured or when
`params.yml` does not exist; otherwise ensure the backup directory (not
represented in the file map) and copy the file's bytes to the timestamped
backup path.  The source's `{success, backupPath?, error?}` result is encoded
as `Except error backupPath`; the returned filesystem is the post-call state. -/
def createBackup (blogPath : Option String) (ts : String) (fs : FileSys) :
    Except String FPath × FileSys :=
  match getParamsPath blogPath, getBackupDir blogPath with
  | some paramsPath, some backupDir =>
    match Assoc.lookup fs paramsPath with
    | none => (.error "params.yml not found", fs)
    | some content =>
      let backupPath := backupDir ++ [generateBackupFilename ts]
      (.ok backupPath, Assoc.setKey fs backupPath content)
  | _, _ => (.error "Blog path not configured", fs)

/-- `ConfigService.readConfig`: resolve the path, check existence, read the
file and parse it.  The third-party parse (and the Document it caches inside
`yamlService`) is abstracted as the parameter `parseFn`, whose document output
is returned explicitly; a thrown parse error surfaces as
`Failed to read config: ...`, as in the source's catch block. -/
def readConfigM {Doc : Type} (blogPath : Option String)
    (parseFn : String → Except String (Doc × List (String × Value)))
    (fs : FileSys) : Except String (Doc × List (String × Value)) :=
  match getParamsPath blogPath with
  | none => .error "Blog path not configured"
  | some paramsPath =>
    match Assoc.lookup fs paramsPath with
    | none => .error "params.yml not found"
    | some content =>
      match parseFn content with
      | .ok dc => .ok dc
      | .error m => .error ("Failed to read config: " ++ m)

/-- `ConfigService.updateConfig` (ConfigService.ts lines 139-173): resolve the
path, create a backup (abort on failure), read and parse the current config,
merge the updates with `mergeConfig`, serialize against the retained document
(abstracted as `serializeFn`) and overwrite `params.yml`.  Returns the backup
path on success, together with the resulting filesystem. -/
def updateConfig {Doc : Type} (blogPath : Option String) (ts : String)
    (parseFn : String → Except String (Doc × List (String × Value)))
    (serializeFn : Doc → List (String × Value) → String)
    (updates : List (String × Value)) (fs : FileSys) :
    Except String FPath × FileSys :=
  match getParamsPath blogPath with
  | none => (.error "Blog path not configured", fs)
  | some paramsPath =>
    match createBackup blogPath ts fs with
    | (.error e, fs1) => (.error e, fs1)
    | (.ok backupPath, fs1) =>
      match readConfigM blogPath parseFn fs1 with
      | .error e => (.error e, fs1)
      | .ok (doc, config) =>
        let updated := mergeConfig config updates
        let yamlContent := serializeFn doc updated
        (.ok backupPath, Assoc.setKey fs1 paramsPath yamlContent)

theorem backupPath_ne_paramsPath (bp ts : String) :
    ([bp, "config", "_default", "backups", generateBackupFilename ts] : FPath) ≠
      [bp, "config", "_default", "params.yml"] := by
  intro h
  have hlen := congrArg List.length h
  simp at hlen

theorem createBackup_none (ts : String) (fs : FileSys) :
    createBackup none ts fs = (.error "Blog path not configured", fs) := rfl

theorem createBackup_some (root ts : String) (fs : FileSys) :
    createBackup (some root) ts fs =
      match Assoc.lookup fs [root, "config", "_default", "params.yml"] with
      | none => (.error "params.yml not found", fs)
      | some content =>
        (.ok [root, "config", "_default", "backups", generateBackupFilename ts],
         Assoc.setKey fs
           [root, "config", "_default", "backups", generateBackupFilename ts]
           content) := rfl

/-- A successful `createBackup` implies: a root was configured, `params.yml`
existed, the returned path is the timestamped file in the backup directory,
and the new filesystem is the old one plus a copy of the file's bytes. -/
theorem createBackup_ok (blogPath : Option String) (ts : String) (fs : FileSys)
    (bpath : FPath) (fs1 : FileSys)
    (h : createBackup blogPath ts fs = (.ok bpath, fs1)) :
    ∃ root pre, blogPath = some root ∧
      Assoc.lookup fs [root, "config", "_default", "params.yml"] = some pre ∧
      bpath = [root, "config", "_default", "backups", generateBackupFilename ts] ∧
      fs1 = Assoc.setKey fs bpath pre := by
  cases blogPath with
  | none => rw [createBackup_none] at h; exact absurd (congrArg Prod.fst h) (by simp)
  | some root =>
    rw [createBackup_some] at h
    cases hcontent : Assoc.lookup fs [root, "config", "_default", "params.yml"] with
    | none => rw [hcontent] at h; exact absurd (congrArg Prod.fst h) (by simp)
    | some pre =>
      rw [hcontent] at h
      simp only [Prod.mk.injEq, Except.ok.injEq] at h
      refine ⟨root, pre, rfl, hcontent, h.1.symm, ?_⟩
      rw [← h.1]
      exact h.2.symm

/-- A failed `createBackup` leaves the filesystem untouched. -/
theorem createBackup_error (blogPath : Option String) (ts : String)
    (fs : FileSys) (m : String) (fs1 : FileSys)
    (h : createBackup blogPath ts fs = (.error m, fs1)) : fs1 = fs := by
  cases blogPath with
  | none =>
    rw [createBackup_none] at h
    injection h with h1 h2
    exact h2.symm
  | some root =>
    rw [createBackup_some] at h
    cases hcontent : Assoc.lookup fs [root, "config", "_default", "params.yml"] with
    | none =>
      rw [hcontent] at h
      simp only [Prod.mk.injEq] at h
      exact h.2.symm
    | some pre =>
      rw [hcontent] at h
      exact absurd (congrArg Prod.fst h) (by simp)

/-- C1: for every successful `updateConfig` call — whatever the (third-party)
parse and serialize functions do — the file at the returned backup path exists
in the final filesystem and byte-equals the pre-update content of
`params.yml`, the backup path being distinct from the target path; and
whenever `createBackup` fails (including when `params.yml` does not exist),
`updateConfig` returns that failure and leaves the filesystem — in particular
the target file — untouched. -/
theorem c1_backup_before_write {Doc : Type} (blogPath : Option String)
    (ts : String)
    (parseFn : String → Except String (Doc × List (String × Value)))
    (serializeFn : Doc → List (String × Value) → String)
    (updates : List (String × Value)) (fs : FileSys) :
    (∀ bp fs2,
       updateConfig blogPath ts parseFn serializeFn updates fs = (.ok bp, fs2) →
       ∃ pp pre, getParamsPath blogPath = some pp ∧
         Assoc.lookup fs pp = some pre ∧
         Assoc.lookup fs2 bp = some pre ∧ bp ≠ pp)
  ∧ (∀ m, (createBackup blogPath ts fs).1 = .error m →
       updateConfig blogPath ts parseFn serializeFn updates fs = (.error m, fs)) := by
  constructor
  · intro bp fs2 h
    rw [updateConfig] at h
    split at h
    · exact absurd (congrArg Prod.fst h) (by simp)
    · rename_i paramsPath hpp
      split at h
      · exact absurd (congrArg Prod.fst h) (by simp)
      · rename_i bpath fs1 hcb
        split at h
        · exact absurd (congrArg Prod.fst h) (by simp)
        · rename_i doc config hread
          simp only [Prod.mk.injEq, Except.ok.injEq] at h
          obtain ⟨rfl, rfl⟩ := h
          obtain ⟨root, pre, hbp, hpre, hbpath, hfs1⟩ :=
            createBackup_ok blogPath ts fs bpath fs1 hcb
          have hppval : paramsPath = [root, "config", "_default", "params.yml"] := by
            rw [hbp] at hpp
            exact (Option.some.inj hpp).symm
          subst hppval; subst hbpath; subst hfs1
          refine ⟨_, pre, hpp ▸ rfl, hpre, ?_, backupPath_ne_paramsPath root ts⟩
          rw [Assoc.lookup_setKey_ne _ _ _ _ (backupPath_ne_paramsPath root ts)]
          exact Assoc.lookup_setKey_self _ _ _
  · intro m h
    rw [updateConfig]
    split
    · rename_i hpp
      have hbp : blogPath = none := by
        cases blogPath with
        | none => rfl
        | some root => simp [getParamsPath] at hpp
      rw [hbp, createBackup_none] at h
      simp only [Except.error.injEq] at h
      rw [h]
    · rename_i paramsPath hpp
      cases hcb : createBackup blogPath ts fs with
      | mk r fs1 =>
        rw [hcb] at h
        cases r with
        | ok bpath => simp at h
        | error e =>
          simp only [Except.error.injEq] at h
          have hfs : fs1 = fs := createBackup_error blogPath ts fs e fs1 hcb
          rw [h, hfs]

/-- Witness for C1: a concrete successful update of a one-file filesystem; the
backup file holds the pre-update bytes of `params.yml`. -/
theorem c1_backup_before_write_witness :
    ∃ pp pre,
      getParamsPath (some "b") = some pp ∧
      Assoc.lookup [(["b", "config", "_default", "params.yml"], "author: A\n")] pp
        = some pre ∧
      Assoc.lookup
        (updateConfig (some "b") "T"
          (fun _ => Except.ok ((), [("author", Value.vstr "A")]))
          (fun _ _ => "out") []
          [(["b", "config", "_default", "params.yml"], "author: A\n")]).2
        ["b", "config", "_default", "backups", generateBackupFilename "T"]
        = some pre ∧
      (["b", "config", "_default", "backups", generateBackupFilename "T"] : FPath)
        ≠ pp :=
  (c1_backup_before_write (some "b") "T"
    (fun _ => Except.ok ((), [("author", Value.vstr "A")]))
    (fun _ _ => "out") []
    [(["b", "config", "_default", "params.yml"], "author: A\n")]).1
    ["b", "config", "_default", "backups", generateBackupFilename "T"]
    (updateConfig (some "b") "T"
      (fun _ => Except.ok ((), [("author", Value.vstr "A")]))
      (fun _ _ => "out") []
      [(["b", "config", "_default", "params.yml"], "author: A\n")]).2
    rfl

/-- C9: with no root path configured, `updateConfig` returns a failure whose
message contains "not configured" (the source message is exactly
`Blog path not configured`), and the filesystem is returned untouched: no
backup file is created and no write is performed. -/
theorem c9_not_configured {Doc : Type} (ts : String)
    (parseFn : String → Except String (Doc × List (String × Value)))
    (serializeFn : Doc → List (String × Value) → String)
    (updates : List (String × Value)) (fs : FileSys) :
    updateConfig none ts parseFn serializeFn updates fs =
      (.error "Blog path not configured", fs)
  ∧ (∃ pre suf, "Blog path not configured" = pre ++ "not configured" ++ suf) :=
  ⟨rfl, ⟨"Blog path ", "", rfl⟩⟩

/-- Primitive JavaScript values (stored inline, not on the heap). -/
inductive Prim where
  | pnull : Prim
  | pbool : Bool → Prim
  | pint : Int → Prim
  | pstr : String → Prim

/-- A heap value: a primitive, or a reference to a heap object. -/
inductive HValue where
  | hprim : Prim → HValue
  | href : Nat → HValue

/-- Heap-allocated data: a plain object (ordered fields) or an array.
`Array.isArray` distinguishes the two, as `mergeConfig` does. -/
inductive ObjData where
  | obj : List (String × HValue) → ObjData
  | arr : List HValue → ObjData

/-- The JavaScript heap: reference-indexed allocations plus the next fresh
reference.  Used to state that `mergeConfig` never mutates its `current`
argument (C5); the pure `mergeConfig` above is the same source function with
the heap left implicit. -/
structure Heap where
  data : List (Nat × ObjData)
  next : Nat

/-- Dereference. -/
def findRef (h : Heap) (r : Nat) : Option ObjData := Assoc.lookup h.data r

/-- Allocate a fresh object, returning the new heap and the fresh reference. -/
def allocH (h : Heap) (o : ObjData) : Heap × Nat :=
  (Heap.mk (h.data ++ [(h.next, o)]) (h.next + 1), h.next)

/-- Assignment into a heap object (arrays are untouched; `mergeConfig` only
ever assigns into the freshly spread `result` object). -/
def setField (o : ObjData) (k : String) (v : HValue) : ObjData :=
  match o with
  | .obj fs => .obj (Assoc.setKey fs k v)
  | .arr es => .arr es

/-- `target[k] = v` on the heap: mutate the object at reference `r` in place. -/
def heapSet (h : Heap) (r : Nat) (k : String) (v : HValue) : Heap :=
  Heap.mk (h.data.map (fun p => if p.1 = r then (p.1, setField p.2 k v) else p)) h.next

/-- The fields of the object at `r` (empty for arrays or dangling refs). -/
def getFields (h : Heap) (r : Nat) : List (String × HValue) :=
  match findRef h r with
  | some (.obj fs) => fs
  | _ => []

/-- `typeof v === 'object' && !Array.isArray(v) && v !== null` on the heap:
the fields when `v` refers to a plain object, else `none`. -/
def asObjFields (h : Heap) : HValue → Option (List (String × HValue))
  | .href r =>
    match findRef h r with
    | some (.obj fs) => some fs
    | _ => none
  | .hprim _ => none

/-- One loop iteration of `ConfigService.mergeConfig`, operating on the heap:
the mutations (`result[key] = ...`) target only the reference `res` of the
freshly created `result` object, and the object-merge branch allocates the
fresh spread `{...currentValue, ...value}` before assigning it. -/
def mergeStepH (res : Nat) (h : Heap) (kv : String × HValue) : Heap :=
  match kv with
  | (key, value) =>
    match value with
    | .hprim .pnull => h
    | _ =>
      match asObjFields h value with
      | some vfs =>
        match Assoc.lookup (getFields h res) key with
        | some cv =>
          match asObjFields h cv with
          | some cfs =>
            match allocH h (.obj (Assoc.spreadMerge cfs vfs)) with
            | (h2, nr) => heapSet h2 res key (.href nr)
          | none => heapSet h res key value
        | none => heapSet h res key value
      | none => heapSet h res key value

/-- `ConfigService.mergeConfig` on the heap: `const result = {...current}`
allocates a fresh shallow copy, then every update entry is folded through
`mergeStepH` targeting that fresh object; the result reference is returned. -/
def mergeConfigH (h : Heap) (cur upd : Nat) : Heap × Nat :=
  match allocH h (.obj (getFields h cur)) with
  | (h1, res) => ((getFields h upd).foldl (mergeStepH res) h1, res)

/-- A primitive as a `Value`. -/
def primVal : Prim → Value
  | .pnull => .vnull
  | .pbool b => .vbool b
  | .pint n => .vint n
  | .pstr s => .vstr s

/-- Fuel-bounded reading of a heap value as a pure `Value` tree. -/
def readHValue (h : Heap) : Nat → HValue → Value
  | _, .hprim p => primVal p
  | 0, .href _ => .vnull
  | fuel + 1, .href r =>
    match findRef h r with
    | some (.obj fs) => .vobj (fs.map (fun p => (p.1, readHValue h fuel p.2)))
    | some (.arr es) => .varr (es.map (fun x => readHValue h fuel x))
    | none => .vnull

/-- Well-formedness: every allocated reference is below `next`. -/
def wfHeap (h : Heap) : Bool :=
  h.data.all (fun p => p.1 < h.next)

/-- A heap value's reference, if any, is allocated. -/
def hvRefOk (h : Heap) : HValue → Bool
  | .hprim _ => true
  | .href r => (findRef h r).isSome

/-- Every reference inside an allocation is itself allocated. -/
def objDataOk (h : Heap) : ObjData → Bool
  | .obj fs => fs.all (fun p => hvRefOk h p.2)
  | .arr es => es.all (fun x => hvRefOk h x)

/-- Closedness: no dangling references anywhere on the heap. -/
def closedHeap (h : Heap) : Bool :=
  h.data.all (fun p => objDataOk h p.2)

theorem Assoc.lookup_append_single {κ α : Type} [DecidableEq κ] :
    ∀ (l : List (κ × α)) (n : κ) (o : α) (r : κ), r ≠ n →
      Assoc.lookup (l ++ [(n, o)]) r = Assoc.lookup l r := by
  intro l n o r h
  induction l with
  | nil => simp [Assoc.lookup, Ne.symm h]
  | cons p rest ih =>
    obtain ⟨k1, v1⟩ := p
    by_cases hk : k1 = r
    · simp [Assoc.lookup, hk]
    · simp [Assoc.lookup, hk, ih]

theorem Assoc.lookup_mem {κ α : Type} [DecidableEq κ] :
    ∀ (l : List (κ × α)) (k : κ) (v : α), Assoc.lookup l k = some v → (k, v) ∈ l := by
  intro l
  induction l with
  | nil => intro k v h; simp [Assoc.lookup] at h
  | cons p rest ih =>
    intro k v h
    obtain ⟨k1, v1⟩ := p
    simp only [Assoc.lookup] at h
    by_cases hk : k1 = k
    · subst hk
      simp only [if_true] at h
      obtain rfl : v1 = v := Option.some.inj h
      exact List.mem_cons_self ..
    · simp only [hk, if_false] at h
      exact List.mem_cons_of_mem _ (ih k v h)

theorem findRef_heapSet_ne (h : Heap) (r : Nat) (k : String) (v : HValue)
    (r2 : Nat) (hne : r2 ≠ r) :
    findRef (heapSet h r k v) r2 = findRef h r2 := by
  show Assoc.lookup (h.data.map (fun p => if p.1 = r then (p.1, setField p.2 k v) else p)) r2
      = Assoc.lookup h.data r2
  induction h.data with
  | nil => rfl
  | cons p rest ih =>
    obtain ⟨k1, o1⟩ := p
    simp only [List.map_cons]
    by_cases hp : k1 = r
    · have h1 : (if ((k1, o1) : Nat × ObjData).1 = r
          then (((k1, o1) : Nat × ObjData).1, setField ((k1, o1) : Nat × ObjData).2 k v)
          else (k1, o1)) = (k1, setField o1 k v) := by
        simp [hp]
      rw [h1]
      have hk2 : k1 ≠ r2 := by rw [hp]; exact Ne.symm hne
      simp only [Assoc.lookup]
      rw [if_neg hk2, if_neg hk2]
      exact ih
    · have h1 : (if ((k1, o1) : Nat × ObjData).1 = r
          then (((k1, o1) : Nat × ObjData).1, setField ((k1, o1) : Nat × ObjData).2 k v)
          else (k1, o1)) = (k1, o1) := by
        simp [hp]
      rw [h1]
      simp only [Assoc.lookup]
      by_cases hk2 : k1 = r2
      · rw [if_pos hk2, if_pos hk2]
      · rw [if_neg hk2, if_neg hk2]
        exact ih

/-- Frame relation for the heap steps of `mergeConfigH`: every reference
allocated before the call reads exactly as before, and `next` has advanced. -/
def HeapPres (h0 h1 : Heap) : Prop :=
  (∀ r, r < h0.next → findRef h1 r = findRef h0 r) ∧ h0.next < h1.next

theorem pres_init (h0 : Heap) (o : ObjData) : HeapPres h0 (allocH h0 o).1 := by
  constructor
  · intro r hr
    exact Assoc.lookup_append_single h0.data h0.next o r (Nat.ne_of_lt hr)
  · exact Nat.lt_succ_self _

theorem pres_alloc_of (h0 h : Heap) (o : ObjData) (hp : HeapPres h0 h) :
    HeapPres h0 (allocH h o).1 := by
  constructor
  · intro r hr
    have hne : r ≠ h.next := Nat.ne_of_lt (Nat.lt_trans hr hp.2)
    exact (Assoc.lookup_append_single h.data h.next o r hne).trans (hp.1 r hr)
  · exact Nat.lt_trans hp.2 (Nat.lt_succ_self _)

theorem pres_heapSet_of (h0 h : Heap) (k : String) (v : HValue)
    (hp : HeapPres h0 h) : HeapPres h0 (heapSet h h0.next k v) := by
  constructor
  · intro r hr
    exact (findRef_heapSet_ne h h0.next k v r (Nat.ne_of_lt hr)).trans (hp.1 r hr)
  · exact hp.2

theorem pres_step (h0 h : Heap) (kv : String × HValue) (hp : HeapPres h0 h) :
    HeapPres h0 (mergeStepH h0.next h kv) := by
  obtain ⟨key, value⟩ := kv
  simp only [mergeStepH]
  split
  · exact hp
  · split
    · split
      · split
        · exact pres_heapSet_of h0 _ key _ (pres_alloc_of h0 h _ hp)
        · exact pres_heapSet_of h0 h key value hp
      · exact pres_heapSet_of h0 h key value hp
    · exact pres_heapSet_of h0 h key value hp

theorem pres_fold (h0 : Heap) :
    ∀ (l : List (String × HValue)) (h : Heap), HeapPres h0 h →
      HeapPres h0 (l.foldl (mergeStepH h0.next) h) := by
  intro l
  induction l with
  | nil => intro h hp; exact hp
  | cons kv rest ih =>
    intro h hp
    exact ih _ (pres_step h0 h kv hp)

theorem findRef_next_none (h0 : Heap) (hwf : wfHeap h0 = true) :
    findRef h0 h0.next = none := by
  cases ho : findRef h0 h0.next with
  | none => rfl
  | some o =>
    have hmem : (h0.next, o) ∈ h0.data := Assoc.lookup_mem _ _ _ ho
    have := List.all_eq_true.mp hwf _ hmem
    simp at this

theorem mapCongrMem {α β : Type} (f g : α → β) :
    ∀ (l : List α), (∀ x ∈ l, f x = g x) → l.map f = l.map g := by
  intro l
  induction l with
  | nil => intro _; rfl
  | cons x rest ih =>
    intro h
    simp only [List.map_cons]
    rw [h x (List.mem_cons_self ..), ih (fun y hy => h y (List.mem_cons_of_mem _ hy))]

theorem readHValue_succ_obj (h : Heap) (n r : Nat)
    (fs : List (String × HValue)) (h2 : findRef h r = some (.obj fs)) :
    readHValue h (n + 1) (.href r) =
      .vobj (fs.map (fun p => (p.1, readHValue h n p.2))) := by
  simp only [readHValue]
  rw [h2]

theorem readHValue_succ_arr (h : Heap) (n r : Nat)
    (es : List HValue) (h2 : findRef h r = some (.arr es)) :
    readHValue h (n + 1) (.href r) =
      .varr (es.map (fun x => readHValue h n x)) := by
  simp only [readHValue]
  rw [h2]

/-- Reading any non-dangling value of a closed heap is unaffected by changes
that preserve every existing allocation. -/
theorem readHValue_agree (h0 h1 : Heap)
    (hag : ∀ r o, findRef h0 r = some o → findRef h1 r = some o)
    (hcl : closedHeap h0 = true) :
    ∀ (fuel : Nat) (hv : HValue), hvRefOk h0 hv = true →
      readHValue h1 fuel hv = readHValue h0 fuel hv := by
  intro fuel
  induction fuel with
  | zero =>
    intro hv _
    cases hv with
    | hprim p => rfl
    | href r => rfl
  | succ n ih =>
    intro hv hok
    cases hv with
    | hprim p => rfl
    | href r =>
      cases ho : findRef h0 r with
      | none => rw [hvRefOk, ho] at hok; simp at hok
      | some o =>
        have hmem : (r, o) ∈ h0.data := Assoc.lookup_mem _ _ _ ho
        have hobj : objDataOk h0 o = true := List.all_eq_true.mp hcl _ hmem
        cases o with
        | obj fs =>
          rw [readHValue_succ_obj h1 n r fs (hag r _ ho),
              readHValue_succ_obj h0 n r fs ho]
          simp only [objDataOk] at hobj
          congr 1
          refine mapCongrMem _ _ fs (fun p hp => ?_)
          show (p.1, readHValue h1 n p.2) = (p.1, readHValue h0 n p.2)
          rw [ih p.2 (List.all_eq_true.mp hobj _ hp)]
        | arr es =>
          rw [readHValue_succ_arr h1 n r es (hag r _ ho),
              readHValue_succ_arr h0 n r es ho]
          simp only [objDataOk] at hobj
          congr 1
          refine mapCongrMem _ _ es (fun x hx => ?_)
          show readHValue h1 n x = readHValue h0 n x
          rw [ih x (List.all_eq_true.mp hobj _ hx)]

/-- C5: `mergeConfig` run on an explicit heap never mutates its `current`
argument.  For a well-formed heap and an allocated `current` object: every
pre-existing allocation (in particular `current` and all its nested objects)
reads exactly as before the call, the returned reference is a new object that
did not exist before, and on a closed heap the whole value tree read from
`current` is unchanged at every depth. -/
theorem c5_merge_no_mutation (h0 : Heap) (cur upd : Nat)
    (hwf : wfHeap h0 = true) (hcur : (findRef h0 cur).isSome = true) :
    (∀ r o, findRef h0 r = some o → findRef (mergeConfigH h0 cur upd).1 r = some o)
  ∧ findRef h0 (mergeConfigH h0 cur upd).2 = none
  ∧ (closedHeap h0 = true → ∀ fuel,
       readHValue (mergeConfigH h0 cur upd).1 fuel (.href cur) =
         readHValue h0 fuel (.href cur)) := by
  have hpres : HeapPres h0 (mergeConfigH h0 cur upd).1 :=
    pres_fold h0 (getFields h0 upd) _ (pres_init h0 (.obj (getFields h0 cur)))
  have hframe : ∀ r o, findRef h0 r = some o →
      findRef (mergeConfigH h0 cur upd).1 r = some o := by
    intro r o ho
    have hmem : (r, o) ∈ h0.data := Assoc.lookup_mem _ _ _ ho
    have hr : r < h0.next := by
      have := List.all_eq_true.mp hwf _ hmem
      simpa using this
    rw [hpres.1 r hr, ho]
  refine ⟨hframe, ?_, ?_⟩
  · exact findRef_next_none h0 hwf
  · intro hcl fuel
    exact readHValue_agree h0 _ hframe hcl fuel (.href cur) hcur

/-- Witness for C5 on a two-object heap: after merging an update object onto
`current`, the `current` object still dereferences to its original fields, the
result is a fresh reference, and reading `current` at depth 2 is unchanged. -/
theorem c5_merge_no_mutation_witness :
    findRef (mergeConfigH
        (Heap.mk [(0, .obj [("author", .hprim (.pstr "A"))]),
                  (1, .obj [("author", .hprim (.pstr "B"))])] 2) 0 1).1 0
      = some (.obj [("author", .hprim (.pstr "A"))])
  ∧ findRef
      (Heap.mk [(0, .obj [("author", .hprim (.pstr "A"))]),
                (1, .obj [("author", .hprim (.pstr "B"))])] 2)
      (mergeConfigH
        (Heap.mk [(0, .obj [("author", .hprim (.pstr "A"))]),
                  (1, .obj [("author", .hprim (.pstr "B"))])] 2) 0 1).2
      = none
  ∧ readHValue (mergeConfigH
        (Heap.mk [(0, .obj [("author", .hprim (.pstr "A"))]),
                  (1, .obj [("author", .hprim (.pstr "B"))])] 2) 0 1).1 2 (.href 0)
      = readHValue
        (Heap.mk [(0, .obj [("author", .hprim (.pstr "A"))]),
                  (1, .obj [("author", .hprim (.pstr "B"))])] 2) 2 (.href 0) := by
  have h := c5_merge_no_mutation
    (Heap.mk [(0, .obj [("author", .hprim (.pstr "A"))]),
              (1, .obj [("author", .hprim (.pstr "B"))])] 2) 0 1 rfl rfl
  exact ⟨h.1 0 _ rfl, h.2.1, h.2.2 rfl 2⟩

/-- A node of the retained YAML Document (CST): a scalar, mapping or sequence,
each carrying the standalone comment lines attached before it
(`commentBefore`), stored verbatim.  Mapping items are (key node, value node)
pairs, as in the `yaml` package's `YAMLMap.items`. -/
inductive YNode where
  | yscal : List String → Value → YNode
  | ymap : List String → List (YNode × YNode) → YNode
  | yseq : List String → List YNode → YNode

mutual

/-- `document.createNode(value)`: a fresh node tree carrying no comments. -/
def createNode : Value → YNode
  | .vobj fs => .ymap [] (createPairs fs)
  | .varr es => .yseq [] (createElems es)
  | v => .yscal [] v

/-- Fresh mapping items for `createNode` of an object. -/
def createPairs : List (String × Value) → List (YNode × YNode)
  | [] => []
  | (k, v) :: rest => (YNode.yscal [] (.vstr k), createNode v) :: createPairs rest

/-- Fresh sequence items for `createNode` of an array. -/
def createElems : List Value → List YNode
  | [] => []
  | v :: rest => createNode v :: createElems rest

end

/-- The key comparison of `updateDocument`: a `Scalar` key matches when its
value equals the config key (`itemKey.value === key`); a non-scalar key never
matches a string key. -/
def keyMatches : YNode → String → Bool
  | .yscal _ (.vstr s), k => s == k
  | _, _ => false

mutual

/-- The per-entry body of `YamlService.updateDocument`'s loop, applied to one
`(key, value)` entry of the config: find the matching item; on a match update
it in place via `setValue`; otherwise append a fresh item (`node.add`).  The
key node of a matched item is never touched, so its attached comments
survive. -/
def updateOne : List (YNode × YNode) → String → Value → List (YNode × YNode)
  | [], k, v => [(YNode.yscal [] (.vstr k), createNode v)]
  | (kn, vn) :: rest, k, v =>
    if keyMatches kn k then (kn, setValue vn v) :: rest
    else (kn, vn) :: updateOne rest k v
termination_by pairs k v => (sizeOf v, 1, sizeOf pairs)

/-- The value update of `updateDocument`: a non-array object value recurses
into an existing mapping node (preserving it and its comments) and otherwise
replaces the node; an array value always replaces the node
(`createNode`, dropping any comments inside it); a scalar value is written
into an existing `Scalar` node in place (keeping its comments), else the node
is replaced. -/
def setValue : YNode → Value → YNode
  | vn, v =>
    match v, vn with
    | .vobj vfs, .ymap cs pairs => .ymap cs (updateMap pairs vfs)
    | .vobj _, _ => createNode v
    | .varr _, _ => createNode v
    | _, .yscal cs _ => .yscal cs v
    | _, _ => createNode v
termination_by vn v => (sizeOf v, 0, sizeOf vn)

/-- `YamlService.updateDocument` (YamlService.ts lines 188-224) as a function
on mapping items: fold every entry of the config through `updateOne`. -/
def updateMap : List (YNode × YNode) → List (String × Value) → List (YNode × YNode)
  | pairs, [] => pairs
  | pairs, (k, v) :: cfg => updateMap (updateOne pairs k v) cfg
termination_by pairs cfg => (sizeOf cfg, 0, 0)

end

/-- Leading space characters removed. -/
def dropSpaces : List Char → List Char
  | ' ' :: rest => dropSpaces rest
  | l => l

/-- A standalone comment line: its first non-space character is `#`. -/
def isCommentChars (l : List Char) : Bool :=
  match dropSpaces l with
  | '#' :: _ => true
  | _ => false

/-- A standalone comment line, on strings. -/
def isCommentLine (l : String) : Bool :=
  isCommentChars l.data

/-- The standalone comment lines of a text given as its list of lines. -/
def standaloneCommentLines (lines : List String) : List String :=
  lines.filter isCommentLine

/-- Split a character list at the first `:`. -/
def splitColon : List Char → Option (List Char × List Char)
  | [] => none
  | ':' :: rest => some ([], rest)
  | c :: rest =>
    match splitColon rest with
    | some (a, b) => some (c :: a, b)
    | none => none

/-- The syntactic kind of one configuration line. -/
inductive LineKind where
  | blank
  | comment
  | seqItem (tok : String)
  | keyVal (k : String) (v : String)
  | keyOnly (k : String)
  | other

/-- Count of leading space characters: the indentation that assigns a line to
its nesting level (§6: nesting is expressed by consistent indentation). -/
def leadSpaces : List Char → Nat
  | ' ' :: rest => leadSpaces rest + 1
  | _ => 0

/-- Modelled from the spec: classification of one line of the configuration
text (§6: key/value, nested-group and list syntax with `#`-prefixed line
comments), together with its indentation depth.  The modelled subset covers
blank lines, standalone comments, `key: value` and `key:` lines and `- item`
sequence entries at any nesting level; the block parser below matches the
returned indentation against the nesting level it is reading. -/
def lineKind (l : String) : Nat × LineKind :=
  (leadSpaces l.data,
   match dropSpaces l.data with
   | [] => .blank
   | '#' :: _ => .comment
   | '-' :: ' ' :: rest => .seqItem (String.mk (dropSpaces rest))
   | cs =>
     match splitColon cs with
     | some (k, rest) =>
       match dropSpaces rest with
       | [] => .keyOnly (String.mk k)
       | vcs => .keyVal (String.mk k) (String.mk vcs)
     | none => .other)

/-- The retained Document: top-level mapping items plus trailing comment
lines after the last entry. -/
structure YDoc where
  pairs : List (YNode × YNode)
  trailing : List String

/-- Modelled from the spec: collect the run of comment (and blank) lines at
the head of the text; they stay pending until the next node they attach
to. -/
def takePending : List String → List String × List String
  | [] => ([], [])
  | l :: rest =>
    match (lineKind l).2 with
    | .blank => takePending rest
    | .comment =>
      match takePending rest with
      | (cs, r) => (l :: cs, r)
    | _ => ([], l :: rest)

/-- Modelled from the spec: parse a run of `- item` sequence entries, all at
indentation `j`; pending comment lines attach before the next item node, as
the third-party parser attaches `commentBefore`.  Returns the items, the
still-pending comment lines and the remaining text; `fuel` only bounds the
recursion and the callers always supply enough. -/
def parseSeqB : Nat → Nat → List String → List String →
    List YNode × List String × List String
  | 0, _, pending, lines => ([], pending, lines)
  | fuel + 1, j, pending, lines =>
    match lines with
    | [] => ([], pending, [])
    | l :: rest =>
      match lineKind l with
      | (_, .blank) => parseSeqB fuel j pending rest
      | (_, .comment) => parseSeqB fuel j (pending ++ [l]) rest
      | (i, .seqItem tok) =>
        if i = j then
          match parseSeqB fuel j [] rest with
          | (items, pend2, rest2) =>
            (YNode.yscal pending (.vstr tok) :: items, pend2, rest2)
        else ([], pending, l :: rest)
      | _ => ([], pending, l :: rest)

/-- Modelled from the spec: parse the mapping items of one block, all at
indentation `i` (§6 nested-group syntax).  Comment lines collect as pending
and attach before the next key node; a `key: value` line yields a scalar
item; a `key:` line opens a block value — a more-indented run of `- item`
lines becomes a sequence node, a more-indented run of mapping lines becomes a
nested mapping node parsed recursively at the deeper indentation, and an
absent block leaves the value empty (null); a line indented less than `i`
closes the block and is handed back, with the still-pending comment lines, to
the enclosing level.  Returns the items, the pending comment lines and the
remaining text; `fuel` only bounds the recursion and `lines.length + 1` is
always enough. -/
def parseMapB : Nat → Nat → List String → List String →
    List (YNode × YNode) × List String × List String
  | 0, _, pending, lines => ([], pending, lines)
  | fuel + 1, i, pending, lines =>
    match lines with
    | [] => ([], pending, [])
    | l :: rest =>
      match lineKind l with
      | (_, .blank) => parseMapB fuel i pending rest
      | (_, .comment) => parseMapB fuel i (pending ++ [l]) rest
      | (j, .keyVal k v) =>
        if j = i then
          match parseMapB fuel i [] rest with
          | (items, pend2, rest2) =>
            ((YNode.yscal pending (.vstr k), YNode.yscal [] (.vstr v)) :: items,
             pend2, rest2)
        else if j < i then ([], pending, l :: rest)
        else parseMapB fuel i pending rest
      | (j, .keyOnly k) =>
        if j = i then
          match takePending rest with
          | (cs, rest1) =>
            match rest1 with
            | [] => ([(YNode.yscal pending (.vstr k), YNode.yscal [] .vnull)], cs, [])
            | l2 :: _ =>
              match lineKind l2 with
              | (j2, .seqItem _) =>
                if i < j2 then
                  match parseSeqB fuel j2 cs rest1 with
                  | (elems, pend2, rest2) =>
                    match parseMapB fuel i pend2 rest2 with
                    | (items, pend3, rest3) =>
                      ((YNode.yscal pending (.vstr k), YNode.yseq [] elems) :: items,
                       pend3, rest3)
                else
                  match parseMapB fuel i cs rest1 with
                  | (items, pend3, rest3) =>
                    ((YNode.yscal pending (.vstr k), YNode.yscal [] .vnull) :: items,
                     pend3, rest3)
              | (j2, .keyVal _ _) =>
                if i < j2 then
                  match parseMapB fuel j2 cs rest1 with
                  | (pairs2, pend2, rest2) =>
                    match parseMapB fuel i pend2 rest2 with
                    | (items, pend3, rest3) =>
                      ((YNode.yscal pending (.vstr k), YNode.ymap [] pairs2) :: items,
                       pend3, rest3)
                else
                  match parseMapB fuel i cs rest1 with
                  | (items, pend3, rest3) =>
                    ((YNode.yscal pending (.vstr k), YNode.yscal [] .vnull) :: items,
                     pend3, rest3)
              | (j2, .keyOnly _) =>
                if i < j2 then
                  match parseMapB fuel j2 cs rest1 with
                  | (pairs2, pend2, rest2) =>
                    match parseMapB fuel i pend2 rest2 with
                    | (items, pend3, rest3) =>
                      ((YNode.yscal pending (.vstr k), YNode.ymap [] pairs2) :: items,
                       pend3, rest3)
                else
                  match parseMapB fuel i cs rest1 with
                  | (items, pend3, rest3) =>
                    ((YNode.yscal pending (.vstr k), YNode.yscal [] .vnull) :: items,
                     pend3, rest3)
              | _ =>
                match parseMapB fuel i cs rest1 with
                | (items, pend3, rest3) =>
                  ((YNode.yscal pending (.vstr k), YNode.yscal [] .vnull) :: items,
                   pend3, rest3)
        else if j < i then ([], pending, l :: rest)
        else parseMapB fuel i pending rest
      | (j, .seqItem _) =>
        if j < i then ([], pending, l :: rest)
        else parseMapB fuel i pending rest
      | (_, .other) => parseMapB fuel i pending rest

/-- Modelled from the spec: the comment-retaining Document produced by the
third-party `parseDocument` for the modelled text subset, nested groups
included; the text is given as its list of lines. -/
def parseLines (lines : List String) : YDoc :=
  match parseMapB (lines.length + 1) 0 [] lines with
  | (items, pending, _) => YDoc.mk items pending

/-- Scalar text for document rendering. -/
def scalarText : Value → String
  | .vstr s => s
  | .vbool true => "true"
  | .vbool false => "false"
  | .vint n => toString n
  | .vnull => "null"
  | _ => ""

/-- The comment lines attached before a node. -/
def nodeComments : YNode → List String
  | .yscal cs _ => cs
  | .ymap cs _ => cs
  | .yseq cs _ => cs

/-- The rendered text of a key node. -/
def keyText : YNode → String
  | .yscal _ v => scalarText v
  | _ => ""

mutual

/-- Modelled from the spec: rendering the Document's mapping items back to
text lines (`document.toString()`); every stored comment line is emitted
verbatim before its node. -/
def renderPairs (ind : String) : List (YNode × YNode) → List String
  | [] => []
  | (kn, vn) :: rest =>
    nodeComments kn ++ renderVal ind (keyText kn) vn ++ renderPairs ind rest
termination_by l => sizeOf l

/-- Rendering of one value node under its key. -/
def renderVal (ind : String) (k : String) : YNode → List String
  | .yscal cs v => cs ++ [ind ++ k ++ ": " ++ scalarText v]
  | .yseq cs items => cs ++ [ind ++ k ++ ":"] ++ renderItems ind items
  | .ymap cs pairs => cs ++ [ind ++ k ++ ":"] ++ renderPairs (ind ++ "  ") pairs
termination_by n => sizeOf n

/-- Rendering of sequence items. -/
def renderItems (ind : String) : List YNode → List String
  | [] => []
  | .yscal cs v :: rest => cs ++ [ind ++ "  - " ++ scalarText v] ++ renderItems ind rest
  | .ymap cs pairs :: rest =>
    cs ++ [ind ++ "  -"] ++ renderPairs (ind ++ "    ") pairs ++ renderItems ind rest
  | .yseq cs items2 :: rest =>
    cs ++ [ind ++ "  -"] ++ renderItems (ind ++ "  ") items2 ++ renderItems ind rest
termination_by l => sizeOf l

end

/-- `updateDocument` applied to a whole Document: items updated in place,
trailing comments untouched. -/
def updateDocModel (d : YDoc) (config : List (String × Value)) : YDoc :=
  YDoc.mk (updateMap d.pairs config) d.trailing

/-- The Document rendered to its lines, trailing comments last. -/
def renderDoc (d : YDoc) : List String :=
  renderPairs "" d.pairs ++ d.trailing

/-- Escape for double-quoted scalars: a newline becomes the two characters
`\n`, so one scalar stays on one output line. -/
def escNl : List Char → List Char
  | [] => []
  | '\n' :: rest => '\\' :: 'n' :: escNl rest
  | c :: rest => c :: escNl rest

/-- Modelled from the spec: scalars the comment-free emitter must quote
(strings containing `#` or a newline). -/
def needsQuote (s : String) : Bool :=
  s.data.any (fun c => c == '#' || c == '\n')

/-- A string scalar's characters, double-quoted when needed. -/
def quoteStr (s : String) : List Char :=
  if needsQuote s then '"' :: (escNl s.data ++ ['"']) else s.data

/-- Decimal digits of a natural number, most significant first. -/
def natDigits (n : Nat) : List Char :=
  if h : n < 10 then [Nat.digitChar n]
  else natDigits (n / 10) ++ [Nat.digitChar (n % 10)]
decreasing_by
  exact Nat.div_lt_self (by omega) (by omega)

/-- Decimal rendering of an integer. -/
def intChars : Int → List Char
  | .ofNat n => natDigits n
  | .negSucc n => '-' :: natDigits (n + 1)

/-- A scalar's characters in the comment-free emitter. -/
def scalarChars : Value → List Char
  | .vnull => ['n', 'u', 'l', 'l']
  | .vbool true => ['t', 'r', 'u', 'e']
  | .vbool false => ['f', 'a', 'l', 's', 'e']
  | .vint n => intChars n
  | .vstr s => quoteStr s
  | _ => []

/-- Two-space indentation (`indent: 2`). -/
def pad (ind : Nat) : List Char := List.replicate (2 * ind) ' '

mutual

/-- Modelled from the spec: the third-party `stringify(config, {indent: 2,
lineWidth: 0, ...})` fallback emission for object fields, in insertion order,
one field per line, nested blocks indented by two spaces. -/
def stringifyFields (ind : Nat) : List (String × Value) → List (List Char)
  | [] => []
  | (k, v) :: rest =>
    (match v with
     | .vobj [] => [pad ind ++ quoteStr k ++ ':' :: ' ' :: ['{', '}']]
     | .vobj fs => (pad ind ++ quoteStr k ++ [':']) :: stringifyFields (ind + 1) fs
     | .varr [] => [pad ind ++ quoteStr k ++ ':' :: ' ' :: ['[', ']']]
     | .varr es => (pad ind ++ quoteStr k ++ [':']) :: stringifyElems (ind + 1) es
     | v2 => [pad ind ++ quoteStr k ++ ':' :: ' ' :: scalarChars v2])
    ++ stringifyFields ind rest
termination_by l => sizeOf l

/-- The fallback emission for array elements. -/
def stringifyElems (ind : Nat) : List Value → List (List Char)
  | [] => []
  | v :: rest =>
    (match v with
     | .vobj [] => [pad ind ++ '-' :: ' ' :: ['{', '}']]
     | .vobj fs => (pad ind ++ ['-']) :: stringifyFields (ind + 1) fs
     | .varr [] => [pad ind ++ '-' :: ' ' :: ['[', ']']]
     | .varr es => (pad ind ++ ['-']) :: stringifyElems (ind + 1) es
     | v2 => [pad ind ++ '-' :: ' ' :: scalarChars v2])
    ++ stringifyElems ind rest
termination_by l => sizeOf l

end

/-- Modelled from the spec: the whole `stringify` fallback, as character
lines. -/
def stringifyChars : Value → List (List Char)
  | .vobj [] => [['{', '}']]
  | .vobj fs => stringifyFields 0 fs
  | .varr [] => [['[', ']']]
  | .varr es => stringifyElems 0 es
  | v => [scalarChars v]

/-- The fallback emission as string lines. -/
def stringifyLines (config : Value) : List String :=
  (stringifyChars config).map (fun l => String.mk l)

/-- `YamlService.serialize` (YamlService.ts lines 99-113): with a cached
Document, update it in place through `updateDocument` and emit its text
(comments preserved); with no Document — reset or never parsed — emit the
fresh comment-free `stringify` representation.  Output is the list of text
lines. -/
def serializeModel (doc : Option YDoc) (config : Value) : List String :=
  match doc with
  | some d => renderDoc (updateDocModel d (objFields config))
  | none => stringifyLines config

/-- `YamlService.reset` (YamlService.ts lines 138-140): the cached Document
becomes null. -/
def resetModel (doc : Option YDoc) : Option YDoc := none

/-- `YamlService.parse` (YamlService.ts lines 81-90): run the third-party
`parseDocument` + `toJS` (abstracted as `pd`, whose thrown errors are
`Except.error`) and complete the result with `applyDefaults`.  The retained
Document side of `parse` is treated separately by `parseLines`. -/
def yamlParseModel (pd : String → Except String Value) (year : Int)
    (content : String) : Except String Value :=
  match pd content with
  | .ok parsed => .ok (applyDefaults year parsed)
  | .error e => .error e

/-- C6: under the specification's contract for the third-party parser —
it succeeds exactly on syntactically valid text and maps empty input to the
empty (null) value — `parse` fails exactly on invalid text (the total default
completion added by the repository preserves success and failure exactly),
and empty input yields the completed empty ConfigValue, which equals the
DefaultTable's top-level value. -/
theorem c6_parse_error_behaviour (pd : String → Except String Value)
    (valid : String → Prop) (year : Int)
    (hiff : ∀ s, (∃ v, pd s = .ok v) ↔ valid s)
    (hempty : pd "" = .ok .vnull) :
    (∀ s, (∃ c, yamlParseModel pd year s = .ok c) ↔ valid s)
  ∧ yamlParseModel pd year "" = .ok (.vobj (defaultConfig year)) := by
  constructor
  · intro s
    constructor
    · rintro ⟨c, hc⟩
      rw [yamlParseModel] at hc
      cases hv : pd s with
      | ok v => exact (hiff s).mp ⟨v, hv⟩
      | error e => rw [hv] at hc; exact absurd hc (by simp)
    · intro hval
      obtain ⟨v, hv⟩ := (hiff s).mpr hval
      exact ⟨applyDefaults year v, by rw [yamlParseModel, hv]⟩
  · rw [yamlParseModel, hempty]
    rfl

/-- Witness for C6: with a trivial parser model accepting everything, parse
accepts everything, and parsing the empty string yields exactly the
DefaultTable's top-level value. -/
theorem c6_parse_error_behaviour_witness :
    (∀ s, (∃ c, yamlParseModel (fun _ => Except.ok Value.vnull) 2026 s = .ok c) ↔ True)
  ∧ yamlParseModel (fun _ => Except.ok Value.vnull) 2026 ""
      = .ok (.vobj (defaultConfig 2026)) :=
  c6_parse_error_behaviour (fun _ => Except.ok Value.vnull) (fun _ => True) 2026
    (fun s => ⟨fun _ => trivial, fun _ => ⟨Value.vnull, rfl⟩⟩) rfl

/-- The comment lines attached before top-level mapping keys of a Document. -/
def topKeyCommentLines : List (YNode × YNode) → List String
  | [] => []
  | (kn, _) :: rest => nodeComments kn ++ topKeyCommentLines rest

/-- The value node of the first mapping item whose key node matches `k`,
exactly as `updateDocument` finds it (`node.items.find`). -/
def docFirst : List (YNode × YNode) → String → Option YNode
  | [], _ => none
  | (kn, vn) :: rest, k => if keyMatches kn k then some vn else docFirst rest k

/-- Follow a chain of nested mapping keys through the Document: the mapping
items reached after descending through the matching `ymap` value node of each
key in `path`. -/
def docPath : List (YNode × YNode) → List String → Option (List (YNode × YNode))
  | pairs, [] => some pairs
  | pairs, k :: path =>
    match docFirst pairs k with
    | some (.ymap _ mpairs) => docPath mpairs path
    | _ => none

/-- Follow the same chain through a config value: the fields of the nested
object reached under each key in `path`. -/
def cfgPath : List (String × Value) → List String → Option (List (String × Value))
  | cfg, [] => some cfg
  | cfg, k :: path =>
    match Assoc.lookup cfg k with
    | some (.vobj g) => cfgPath g path
    | _ => none

/-- Key distinctness of a config value along a chain: every object level the
chain passes through has pairwise distinct keys. -/
def pathNodup : List (String × Value) → List String → Bool
  | cfg, [] => decide ((cfg.map Prod.fst).Nodup)
  | cfg, k :: path =>
    decide ((cfg.map Prod.fst).Nodup) &&
      (match Assoc.lookup cfg k with
       | some (.vobj g) => pathNodup g path
       | _ => true)

mutual

/-- Every comment line stored anywhere in a node. -/
def allNodeComments : YNode → List String
  | .yscal cs _ => cs
  | .ymap cs pairs => cs ++ allPairsComments pairs
  | .yseq cs items => cs ++ allItemsComments items

/-- Every comment line stored in mapping items: the key nodes contribute
their own attached comments, the value nodes everything below them. -/
def allPairsComments : List (YNode × YNode) → List String
  | [] => []
  | (kn, vn) :: rest => nodeComments kn ++ allNodeComments vn ++ allPairsComments rest

/-- Every comment line stored in sequence items. -/
def allItemsComments : List YNode → List String
  | [] => []
  | n :: rest => allNodeComments n ++ allItemsComments rest

end

/-- C7 counterexample: two sources on which a standalone comment line of the
original text is dropped by `serialize`.  First, a comment inside a list
block: serializing the merged (here: unchanged) value rewrites the list node
wholesale (`updateDocument`'s array branch calls `createNode`), so the
comment is dropped even though no field changed.  Second, a comment before a
nested mapping key: the update turns the enclosing group into a scalar
(type-legal for an unrecognized field under the `BlogConfig` index
signature), so `updateDocument` replaces the whole group node via
`createNode` and the nested key's comment is dropped. -/
theorem c7_comment_preservation_counterexample :
    ("  # keepme" ∈ standaloneCommentLines ["menu:", "  # keepme", "  - home"]
   ∧ "  # keepme" ∉ serializeModel
        (some (parseLines ["menu:", "  # keepme", "  - home"]))
        (.vobj (mergeConfig [("menu", .varr [.vstr "home"])] [])))
  ∧ ("  # nested" ∈ standaloneCommentLines ["custom:", "  # nested", "  inner: 1"]
   ∧ "  # nested" ∉ serializeModel
        (some (parseLines ["custom:", "  # nested", "  inner: 1"]))
        (.vobj (mergeConfig [("custom", .vobj [("inner", .vint 1)])]
                            [("custom", .vstr "x")]))) := by
  refine ⟨⟨by decide, ?_⟩, ⟨by decide, ?_⟩⟩
  · have hdoc : parseLines ["menu:", "  # keepme", "  - home"] =
        YDoc.mk [(YNode.yscal [] (.vstr "menu"),
                  YNode.yseq [] [YNode.yscal ["  # keepme"] (.vstr "home")])] [] := by
      rfl
    have hstep : serializeModel
        (some (parseLines ["menu:", "  # keepme", "  - home"]))
        (.vobj (mergeConfig [("menu", Value.varr [Value.vstr "home"])] []))
        = ["menu:", "  - home"] := by
      rw [hdoc]
      simp [serializeModel, updateDocModel, renderDoc, mergeConfig, updateMap,
        updateOne, setValue, createNode, createElems, keyMatches, renderPairs,
        renderVal, renderItems, nodeComments, keyText, scalarText, objFields]
      all_goals decide
    rw [hstep]
    decide
  · have hdoc : parseLines ["custom:", "  # nested", "  inner: 1"] =
        YDoc.mk [(YNode.yscal [] (.vstr "custom"),
                  YNode.ymap [] [(YNode.yscal ["  # nested"] (.vstr "inner"),
                                  YNode.yscal [] (.vstr "1"))])] [] := by
      rfl
    have hstep : serializeModel
        (some (parseLines ["custom:", "  # nested", "  inner: 1"]))
        (.vobj (mergeConfig [("custom", Value.vobj [("inner", Value.vint 1)])]
                            [("custom", Value.vstr "x")]))
        = ["custom: x"] := by
      rw [hdoc]
      simp [serializeModel, updateDocModel, renderDoc, mergeConfig, mergeStep,
        isPlainObj, Assoc.setKey, Assoc.lookup, updateMap, updateOne, setValue,
        createNode, createPairs, keyMatches, renderPairs, renderVal,
        renderItems, nodeComments, keyText, scalarText, objFields]
      all_goals decide
    rw [hstep]
    decide

theorem topKeyCommentLines_updateOne :
    ∀ (pairs : List (YNode × YNode)) (k : String) (v : Value) (c : String),
      c ∈ topKeyCommentLines pairs → c ∈ topKeyCommentLines (updateOne pairs k v) := by
  intro pairs
  induction pairs with
  | nil => intro k v c h; simp [topKeyCommentLines] at h
  | cons p rest ih =>
    intro k v c h
    obtain ⟨kn, vn⟩ := p
    rw [updateOne]
    split
    · exact h
    · simp only [topKeyCommentLines] at h ⊢
      rcases List.mem_append.mp h with h | h
      · exact List.mem_append_left _ h
      · exact List.mem_append_right _ (ih k v c h)

theorem topKeyCommentLines_updateMap :
    ∀ (cfg : List (String × Value)) (pairs : List (YNode × YNode)) (c : String),
      c ∈ topKeyCommentLines pairs → c ∈ topKeyCommentLines (updateMap pairs cfg) := by
  intro cfg
  induction cfg with
  | nil => intro pairs c h; simp only [updateMap]; exact h
  | cons kv cfg2 ih =>
    intro pairs c h
    obtain ⟨k, v⟩ := kv
    rw [updateMap]
    exact ih _ c (topKeyCommentLines_updateOne pairs k v c h)

theorem renderPairs_contains_topKeyComments :
    ∀ (pairs : List (YNode × YNode)) (ind : String) (c : String),
      c ∈ topKeyCommentLines pairs → c ∈ renderPairs ind pairs := by
  intro pairs
  induction pairs with
  | nil => intro ind c h; simp [topKeyCommentLines] at h
  | cons p rest ih =>
    intro ind c h
    obtain ⟨kn, vn⟩ := p
    simp only [topKeyCommentLines] at h
    rw [renderPairs]
    have hrec := ih ind c
    simp only [List.mem_append] at h ⊢
    tauto

theorem keyMatches_inj : ∀ (kn : YNode) (k k2 : String),
    keyMatches kn k = true → keyMatches kn k2 = true → k = k2
  | .yscal _ (.vstr _), _, _, h1, h2 => (eq_of_beq h1).symm.trans (eq_of_beq h2)
  | .yscal _ .vnull, _, _, h1, _ => Bool.noConfusion h1
  | .yscal _ (.vbool _), _, _, h1, _ => Bool.noConfusion h1
  | .yscal _ (.vint _), _, _, h1, _ => Bool.noConfusion h1
  | .yscal _ (.varr _), _, _, h1, _ => Bool.noConfusion h1
  | .yscal _ (.vobj _), _, _, h1, _ => Bool.noConfusion h1
  | .ymap _ _, _, _, h1, _ => Bool.noConfusion h1
  | .yseq _ _, _, _, h1, _ => Bool.noConfusion h1

theorem docFirst_updateOne_ne :
    ∀ (pairs : List (YNode × YNode)) (k2 : String) (v2 : Value) (k : String),
      k ≠ k2 → docFirst (updateOne pairs k2 v2) k = docFirst pairs k := by
  intro pairs
  induction pairs with
  | nil =>
    intro k2 v2 k hne
    have hk : (k2 == k) = false := beq_eq_false_iff_ne.mpr (Ne.symm hne)
    simp only [updateOne, docFirst, keyMatches, hk]
    simp
  | cons p rest ih =>
    intro k2 v2 k hne
    obtain ⟨kn, vn⟩ := p
    by_cases hm : keyMatches kn k2 = true
    · have hk : keyMatches kn k = false := by
        cases hkk : keyMatches kn k
        · rfl
        · exact absurd (keyMatches_inj kn k k2 hkk hm) hne
      simp only [updateOne, hm, if_true, docFirst, hk]
      simp
    · have hm2 : keyMatches kn k2 = false := by
        cases hkk : keyMatches kn k2
        · rfl
        · exact absurd hkk hm
      simp only [updateOne, hm2, Bool.false_eq_true, if_false, docFirst]
      cases hkk : keyMatches kn k
      · simp only [Bool.false_eq_true, if_false]
        exact ih k2 v2 k hne
      · simp

theorem docFirst_updateOne_hit :
    ∀ (pairs : List (YNode × YNode)) (k : String) (v : Value) (vn0 : YNode),
      docFirst pairs k = some vn0 →
      docFirst (updateOne pairs k v) k = some (setValue vn0 v) := by
  intro pairs
  induction pairs with
  | nil => intro k v vn0 h; simp [docFirst] at h
  | cons p rest ih =>
    intro k v vn0 h
    obtain ⟨kn, vn⟩ := p
    by_cases hm : keyMatches kn k = true
    · simp only [docFirst, hm, if_true] at h
      obtain rfl := Option.some.inj h
      simp [updateOne, docFirst, hm]
    · have hm2 : keyMatches kn k = false := by
        cases hkk : keyMatches kn k
        · rfl
        · exact absurd hkk hm
      simp only [docFirst, hm2, Bool.false_eq_true, if_false] at h
      simp only [updateOne, hm2, Bool.false_eq_true, if_false, docFirst]
      exact ih k v vn0 h

theorem docFirst_updateMap_not_mem :
    ∀ (cfg : List (String × Value)) (pairs : List (YNode × YNode)) (k : String),
      Assoc.lookup cfg k = none →
      docFirst (updateMap pairs cfg) k = docFirst pairs k := by
  intro cfg
  induction cfg with
  | nil => intro pairs k _; simp only [updateMap]
  | cons kv cfg2 ih =>
    intro pairs k h
    obtain ⟨k1, v1⟩ := kv
    simp only [Assoc.lookup] at h
    by_cases hk : k1 = k
    · simp [hk] at h
    · simp only [hk, if_false] at h
      rw [updateMap]
      rw [ih _ k h, docFirst_updateOne_ne pairs k1 v1 k (Ne.symm hk)]

theorem updateMap_append :
    ∀ (a b : List (String × Value)) (pairs : List (YNode × YNode)),
      updateMap pairs (a ++ b) = updateMap (updateMap pairs a) b := by
  intro a
  induction a with
  | nil => intro b pairs; simp only [List.nil_append, updateMap]
  | cons kv a2 ih =>
    intro b pairs
    obtain ⟨k, v⟩ := kv
    simp only [List.cons_append, updateMap]
    exact ih b (updateOne pairs k v)

theorem docFirst_updateMap_hit (pairs : List (YNode × YNode))
    (cfg : List (String × Value)) (k : String) (v : Value) (vn0 : YNode)
    (hnd : (cfg.map Prod.fst).Nodup)
    (hl : Assoc.lookup cfg k = some v)
    (hd : docFirst pairs k = some vn0) :
    docFirst (updateMap pairs cfg) k = some (setValue vn0 v) := by
  obtain ⟨l1, l2, heq, hnone⟩ := lookup_split cfg k v hl
  subst heq
  have h2 : Assoc.lookup l2 k = none := by
    rw [Assoc.lookup_eq_none_iff]
    simp only [List.map_append, List.map_cons, List.nodup_append] at hnd
    exact (List.nodup_cons.mp hnd.2.1).1
  have hfirst : docFirst (updateMap pairs l1) k = some vn0 := by
    rw [docFirst_updateMap_not_mem l1 pairs k hnone]
    exact hd
  rw [updateMap_append l1 ((k, v) :: l2) pairs, updateMap,
    docFirst_updateMap_not_mem l2 _ k h2,
    docFirst_updateOne_hit _ k v vn0 hfirst]

theorem setValue_map_obj (cs : List String) (mp : List (YNode × YNode))
    (g : List (String × Value)) :
    setValue (.ymap cs mp) (.vobj g) = .ymap cs (updateMap mp g) := by
  simp [setValue]

theorem docPath_cons_inv (pairs : List (YNode × YNode)) (k : String)
    (path : List String) (mp2 : List (YNode × YNode))
    (h : docPath pairs (k :: path) = some mp2) :
    ∃ cs mp, docFirst pairs k = some (.ymap cs mp) ∧ docPath mp path = some mp2 := by
  cases hdf : docFirst pairs k with
  | none =>
    rw [show docPath pairs (k :: path) = none from by simp only [docPath, hdf]] at h
    exact Option.noConfusion h
  | some vnode =>
    cases vnode with
    | yscal cs v =>
      rw [show docPath pairs (k :: path) = none from by simp only [docPath, hdf]] at h
      exact Option.noConfusion h
    | ymap cs mp =>
      refine ⟨cs, mp, rfl, ?_⟩
      rw [show docPath pairs (k :: path) = docPath mp path from by
        simp only [docPath, hdf]] at h
      exact h
    | yseq cs items =>
      rw [show docPath pairs (k :: path) = none from by simp only [docPath, hdf]] at h
      exact Option.noConfusion h

theorem cfgPath_cons_inv (cfg : List (String × Value)) (k : String)
    (path : List String) (g2 : List (String × Value))
    (h : cfgPath cfg (k :: path) = some g2) :
    ∃ g, Assoc.lookup cfg k = some (.vobj g) ∧ cfgPath g path = some g2 := by
  cases hl : Assoc.lookup cfg k with
  | none =>
    rw [show cfgPath cfg (k :: path) = none from by simp only [cfgPath, hl]] at h
    exact Option.noConfusion h
  | some v =>
    cases v with
    | vobj g =>
      refine ⟨g, rfl, ?_⟩
      rw [show cfgPath cfg (k :: path) = cfgPath g path from by
        simp only [cfgPath, hl]] at h
      exact h
    | vnull =>
      rw [show cfgPath cfg (k :: path) = none from by simp only [cfgPath, hl]] at h
      exact Option.noConfusion h
    | vbool b =>
      rw [show cfgPath cfg (k :: path) = none from by simp only [cfgPath, hl]] at h
      exact Option.noConfusion h
    | vint n =>
      rw [show cfgPath cfg (k :: path) = none from by simp only [cfgPath, hl]] at h
      exact Option.noConfusion h
    | vstr s =>
      rw [show cfgPath cfg (k :: path) = none from by simp only [cfgPath, hl]] at h
      exact Option.noConfusion h
    | varr es =>
      rw [show cfgPath cfg (k :: path) = none from by simp only [cfgPath, hl]] at h
      exact Option.noConfusion h

theorem pathNodup_cons_inv (cfg g : List (String × Value)) (k : String)
    (path : List String) (hl : Assoc.lookup cfg k = some (.vobj g))
    (h : pathNodup cfg (k :: path) = true) :
    (cfg.map Prod.fst).Nodup ∧ pathNodup g path = true := by
  rw [show pathNodup cfg (k :: path)
      = (decide ((cfg.map Prod.fst).Nodup) && pathNodup g path) from by
        simp only [pathNodup, hl]] at h
  simp only [Bool.and_eq_true] at h
  exact ⟨of_decide_eq_true h.1, h.2⟩

theorem docPath_updateMap :
    ∀ (path : List String) (pairs : List (YNode × YNode))
      (cfg : List (String × Value)) (mp2 : List (YNode × YNode))
      (g2 : List (String × Value)),
      docPath pairs path = some mp2 →
      cfgPath cfg path = some g2 →
      pathNodup cfg path = true →
      docPath (updateMap pairs cfg) path = some (updateMap mp2 g2) := by
  intro path
  induction path with
  | nil =>
    intro pairs cfg mp2 g2 hd hc _
    simp only [docPath] at hd ⊢
    simp only [cfgPath] at hc
    obtain rfl := Option.some.inj hd
    obtain rfl := Option.some.inj hc
    rfl
  | cons k path ih =>
    intro pairs cfg mp2 g2 hd hc hn
    obtain ⟨cs, mp, hdf, hd2⟩ := docPath_cons_inv pairs k path mp2 hd
    obtain ⟨g, hl, hc2⟩ := cfgPath_cons_inv cfg k path g2 hc
    obtain ⟨hnd, hn2⟩ := pathNodup_cons_inv cfg g k path hl hn
    have hhit := docFirst_updateMap_hit pairs cfg k (.vobj g) (.ymap cs mp) hnd hl hdf
    rw [setValue_map_obj] at hhit
    rw [show docPath (updateMap pairs cfg) (k :: path) = docPath (updateMap mp g) path
      from by simp only [docPath, hhit]]
    exact ih mp g mp2 g2 hd2 hc2 hn2

mutual

/-- Every comment line stored in a node is emitted by its rendering. -/
theorem allNodeComments_renderVal (vn : YNode) :
    ∀ (ind k c : String), c ∈ allNodeComments vn → c ∈ renderVal ind k vn := by
  match vn with
  | .yscal cs v =>
    intro ind k c h
    simp only [allNodeComments] at h
    simp only [renderVal, List.mem_append]
    exact Or.inl h
  | .ymap cs pairs =>
    intro ind k c h
    simp only [allNodeComments, List.mem_append] at h
    simp only [renderVal, List.mem_append]
    rcases h with h | h
    · exact Or.inl (Or.inl h)
    · exact Or.inr (allPairsComments_renderPairs pairs (ind ++ "  ") c h)
  | .yseq cs items =>
    intro ind k c h
    simp only [allNodeComments, List.mem_append] at h
    simp only [renderVal, List.mem_append]
    rcases h with h | h
    · exact Or.inl (Or.inl h)
    · exact Or.inr (allItemsComments_renderItems items ind c h)
termination_by sizeOf vn

/-- Every comment line stored in mapping items is emitted by their
rendering. -/
theorem allPairsComments_renderPairs (pairs : List (YNode × YNode)) :
    ∀ (ind c : String), c ∈ allPairsComments pairs → c ∈ renderPairs ind pairs := by
  match pairs with
  | [] => intro ind c h; simp [allPairsComments] at h
  | (kn, vn) :: rest =>
    intro ind c h
    simp only [allPairsComments, List.mem_append] at h
    simp only [renderPairs, List.mem_append]
    rcases h with (h | h) | h
    · exact Or.inl (Or.inl h)
    · exact Or.inl (Or.inr (allNodeComments_renderVal vn ind (keyText kn) c h))
    · exact Or.inr (allPairsComments_renderPairs rest ind c h)
termination_by sizeOf pairs

/-- Every comment line stored in sequence items is emitted by their
rendering. -/
theorem allItemsComments_renderItems (items : List YNode) :
    ∀ (ind c : String), c ∈ allItemsComments items → c ∈ renderItems ind items := by
  match items with
  | [] => intro ind c h; simp [allItemsComments] at h
  | n :: rest =>
    intro ind c h
    simp only [allItemsComments, List.mem_append] at h
    cases n with
    | yscal cs v =>
      simp only [renderItems, List.mem_append]
      rcases h with h | h
      · simp only [allNodeComments] at h
        exact Or.inl (Or.inl h)
      · exact Or.inr (allItemsComments_renderItems rest ind c h)
    | ymap cs pairs =>
      simp only [renderItems, List.mem_append]
      rcases h with h | h
      · simp only [allNodeComments, List.mem_append] at h
        rcases h with h | h
        · exact Or.inl (Or.inl (Or.inl h))
        · exact Or.inl (Or.inr (allPairsComments_renderPairs pairs (ind ++ "    ") c h))
      · exact Or.inr (allItemsComments_renderItems rest ind c h)
    | yseq cs items2 =>
      simp only [renderItems, List.mem_append]
      rcases h with h | h
      · simp only [allNodeComments, List.mem_append] at h
        rcases h with h | h
        · exact Or.inl (Or.inl (Or.inl h))
        · exact Or.inl (Or.inr (allItemsComments_renderItems items2 (ind ++ "  ") c h))
      · exact Or.inr (allItemsComments_renderItems rest ind c h)
termination_by sizeOf items

end

theorem docFirst_renderPairs :
    ∀ (pairs : List (YNode × YNode)) (ind k : String) (vn : YNode),
      docFirst pairs k = some vn →
      ∀ c, c ∈ allNodeComments vn → c ∈ renderPairs ind pairs := by
  intro pairs
  induction pairs with
  | nil => intro ind k vn h; simp [docFirst] at h
  | cons p rest ih =>
    intro ind k vn h c hc
    obtain ⟨kn, vn1⟩ := p
    simp only [renderPairs, List.mem_append]
    by_cases hm : keyMatches kn k = true
    · simp only [docFirst, hm, if_true] at h
      obtain rfl := Option.some.inj h
      exact Or.inl (Or.inr (allNodeComments_renderVal vn1 ind (keyText kn) c hc))
    · have hm2 : keyMatches kn k = false := by
        cases hkk : keyMatches kn k
        · rfl
        · exact absurd hkk hm
      simp only [docFirst, hm2, Bool.false_eq_true, if_false] at h
      exact Or.inr (ih ind k vn h c hc)

theorem docFirst_renderPairs_map :
    ∀ (pairs : List (YNode × YNode)) (ind k : String) (cs2 : List String)
      (mp : List (YNode × YNode)),
      docFirst pairs k = some (.ymap cs2 mp) →
      ∀ c, c ∈ renderPairs (ind ++ "  ") mp → c ∈ renderPairs ind pairs := by
  intro pairs
  induction pairs with
  | nil => intro ind k cs2 mp h; simp [docFirst] at h
  | cons p rest ih =>
    intro ind k cs2 mp h c hc
    obtain ⟨kn, vn1⟩ := p
    simp only [renderPairs, List.mem_append]
    by_cases hm : keyMatches kn k = true
    · simp only [docFirst, hm, if_true] at h
      obtain rfl := Option.some.inj h
      refine Or.inl (Or.inr ?_)
      simp only [renderVal, List.mem_append]
      exact Or.inr hc
    · have hm2 : keyMatches kn k = false := by
        cases hkk : keyMatches kn k
        · rfl
        · exact absurd hkk hm
      simp only [docFirst, hm2, Bool.false_eq_true, if_false] at h
      exact Or.inr (ih ind k cs2 mp h c hc)

theorem docPath_renderPairs :
    ∀ (path : List String) (pairs mp2 : List (YNode × YNode)),
      docPath pairs path = some mp2 →
      ∀ c, (∀ ind2, c ∈ renderPairs ind2 mp2) → ∀ ind, c ∈ renderPairs ind pairs := by
  intro path
  induction path with
  | nil =>
    intro pairs mp2 h c hc ind
    simp only [docPath] at h
    obtain rfl := Option.some.inj h
    exact hc ind
  | cons k path ih =>
    intro pairs mp2 h c hc ind
    obtain ⟨cs, mp, hdf, h2⟩ := docPath_cons_inv pairs k path mp2 h
    exact docFirst_renderPairs_map pairs ind k cs mp hdf c
      (ih mp mp2 h2 c hc (ind ++ "  "))

/-- C7 as amended: comment preservation of `serialize` with a cached
Document, for every value/update pair.  (1) Every standalone comment line
attached before a top-level mapping key and every trailing comment line
appears verbatim in the output — `updateDocument` never removes or rewrites
key nodes.  (2) A comment line attached before a nested mapping key is
preserved whenever every enclosing group on the key's chain is present in
the serialized value as a nested object with distinct keys, so
`updateDocument` recurses into each retained mapping node instead of
replacing it.  (3) Every comment line inside a group that the serialized
value leaves untouched at the end of such a chain is preserved.  Comment
lines under a node replaced wholesale via `createNode` are not preserved
(see the counterexample): list value nodes are always rewritten, and a group
node is rewritten when its new value is not a non-array object. -/
theorem c7_comment_preservation_amended (lines : List String)
    (value update : List (String × Value)) :
    (∀ c, c ∈ topKeyCommentLines (parseLines lines).pairs ∨
          c ∈ (parseLines lines).trailing →
       c ∈ serializeModel (some (parseLines lines))
           (.vobj (mergeConfig value update)))
  ∧ (∀ path mp2 g2 c,
       docPath (parseLines lines).pairs path = some mp2 →
       cfgPath (mergeConfig value update) path = some g2 →
       pathNodup (mergeConfig value update) path = true →
       c ∈ topKeyCommentLines mp2 →
       c ∈ serializeModel (some (parseLines lines))
           (.vobj (mergeConfig value update)))
  ∧ (∀ path mp2 g2 k vn c,
       docPath (parseLines lines).pairs path = some mp2 →
       cfgPath (mergeConfig value update) path = some g2 →
       pathNodup (mergeConfig value update) path = true →
       docFirst mp2 k = some vn →
       Assoc.lookup g2 k = none →
       c ∈ allNodeComments vn →
       c ∈ serializeModel (some (parseLines lines))
           (.vobj (mergeConfig value update))) := by
  refine ⟨?_, ?_, ?_⟩
  · intro c h
    simp only [serializeModel, updateDocModel, renderDoc, objFields]
    rcases h with h | h
    · exact List.mem_append_left _
        (renderPairs_contains_topKeyComments _ "" c
          (topKeyCommentLines_updateMap _ _ c h))
    · exact List.mem_append_right _ h
  · intro path mp2 g2 c hd hc hn hmem
    simp only [serializeModel, updateDocModel, renderDoc, objFields]
    refine List.mem_append_left _ ?_
    have hupd := docPath_updateMap path (parseLines lines).pairs
      (mergeConfig value update) mp2 g2 hd hc hn
    exact docPath_renderPairs path _ _ hupd c
      (fun ind2 => renderPairs_contains_topKeyComments _ ind2 c
        (topKeyCommentLines_updateMap g2 mp2 c hmem)) ""
  · intro path mp2 g2 k vn c hd hc hn hdf hnone hmem
    simp only [serializeModel, updateDocModel, renderDoc, objFields]
    refine List.mem_append_left _ ?_
    have hupd := docPath_updateMap path (parseLines lines).pairs
      (mergeConfig value update) mp2 g2 hd hc hn
    have hdf2 : docFirst (updateMap mp2 g2) k = some vn := by
      rw [docFirst_updateMap_not_mem g2 mp2 k hnone]
      exact hdf
    exact docPath_renderPairs path _ _ hupd c
      (fun ind2 => docFirst_renderPairs (updateMap mp2 g2) ind2 k vn hdf2 c hmem) ""

/-- Witness for C7 amended on a nested source: the header comment before
`custom`, the comment before the nested key `inner` — whose enclosing group
is updated as an object, so its mapping node is recursed into — and the
comment inside the untouched `ghost` group all survive serialization. -/
theorem c7_comment_preservation_amended_witness :
    "# top" ∈ serializeModel
      (some (parseLines ["# top", "custom:", "  # nested", "  inner: 1",
                         "ghost:", "  # kept", "  gee: g"]))
      (.vobj (mergeConfig [("custom", .vobj [("inner", .vint 1)])]
                          [("custom", .vobj [("inner", .vint 2)])]))
  ∧ "  # nested" ∈ serializeModel
      (some (parseLines ["# top", "custom:", "  # nested", "  inner: 1",
                         "ghost:", "  # kept", "  gee: g"]))
      (.vobj (mergeConfig [("custom", .vobj [("inner", .vint 1)])]
                          [("custom", .vobj [("inner", .vint 2)])]))
  ∧ "  # kept" ∈ serializeModel
      (some (parseLines ["# top", "custom:", "  # nested", "  inner: 1",
                         "ghost:", "  # kept", "  gee: g"]))
      (.vobj (mergeConfig [("custom", .vobj [("inner", .vint 1)])]
                          [("custom", .vobj [("inner", .vint 2)])])) := by
  refine ⟨?_, ?_, ?_⟩
  · exact (c7_comment_preservation_amended
      ["# top", "custom:", "  # nested", "  inner: 1", "ghost:", "  # kept", "  gee: g"]
      [("custom", .vobj [("inner", .vint 1)])]
      [("custom", .vobj [("inner", .vint 2)])]).1 "# top" (Or.inl (by decide))
  · exact (c7_comment_preservation_amended
      ["# top", "custom:", "  # nested", "  inner: 1", "ghost:", "  # kept", "  gee: g"]
      [("custom", .vobj [("inner", .vint 1)])]
      [("custom", .vobj [("inner", .vint 2)])]).2.1 ["custom"]
      [(YNode.yscal ["  # nested"] (.vstr "inner"), YNode.yscal [] (.vstr "1"))]
      [("inner", Value.vint 2)] "  # nested" (by rfl) (by rfl) (by decide) (by decide)
  · exact (c7_comment_preservation_amended
      ["# top", "custom:", "  # nested", "  inner: 1", "ghost:", "  # kept", "  gee: g"]
      [("custom", .vobj [("inner", .vint 1)])]
      [("custom", .vobj [("inner", .vint 2)])]).2.2 []
      [(YNode.yscal ["# top"] (.vstr "custom"),
        YNode.ymap [] [(YNode.yscal ["  # nested"] (.vstr "inner"),
                        YNode.yscal [] (.vstr "1"))]),
       (YNode.yscal [] (.vstr "ghost"),
        YNode.ymap [] [(YNode.yscal ["  # kept"] (.vstr "gee"),
                        YNode.yscal [] (.vstr "g"))])]
      [("custom", Value.vobj [("inner", Value.vint 2)])] "ghost"
      (YNode.ymap [] [(YNode.yscal ["  # kept"] (.vstr "gee"),
                       YNode.yscal [] (.vstr "g"))]) "  # kept"
      (by rfl) (by rfl) (by decide) (by rfl) (by rfl)
      (by simp [allNodeComments, allPairsComments, nodeComments])

theorem dropSpaces_cons_ne (c : Char) (l : List Char) (h : c ≠ ' ') :
    dropSpaces (c :: l) = c :: l := by
  unfold dropSpaces
  split
  · rename_i rest heq
    exact absurd (List.head_eq_of_cons_eq heq) h
  · rfl

theorem dropSpaces_replicate (n : Nat) (l : List Char) :
    dropSpaces (List.replicate n ' ' ++ l) = dropSpaces l := by
  induction n with
  | zero => rfl
  | succ m ih =>
    rw [List.replicate_succ, List.cons_append]
    show dropSpaces (List.replicate m ' ' ++ l) = dropSpaces l
    exact ih

theorem dropSpaces_append_of_nil (a b : List Char) (h : dropSpaces a = []) :
    dropSpaces (a ++ b) = dropSpaces b := by
  induction a with
  | nil => rfl
  | cons c rest ih =>
    by_cases hc : c = ' '
    · subst hc
      rw [List.cons_append]
      show dropSpaces (rest ++ b) = dropSpaces b
      exact ih h
    · rw [dropSpaces_cons_ne c rest hc] at h
      exact absurd h (by simp)

theorem dropSpaces_append_of_cons (a b : List Char) (c : Char) (t : List Char)
    (h : dropSpaces a = c :: t) :
    dropSpaces (a ++ b) = c :: (t ++ b) := by
  induction a with
  | nil => simp [dropSpaces] at h
  | cons d rest ih =>
    by_cases hd : d = ' '
    · subst hd
      rw [List.cons_append]
      show dropSpaces (rest ++ b) = c :: (t ++ b)
      exact ih (by
        rw [show dropSpaces (' ' :: rest) = dropSpaces rest from rfl] at h
        exact h)
    · rw [dropSpaces_cons_ne d rest hd] at h
      obtain ⟨rfl, rfl⟩ : d = c ∧ rest = t := ⟨List.head_eq_of_cons_eq h, List.tail_eq_of_cons_eq h⟩
      rw [List.cons_append]
      exact dropSpaces_cons_ne _ _ hd

theorem dropSpaces_head_mem :
    ∀ (l : List Char) (c : Char) (t : List Char), dropSpaces l = c :: t → c ∈ l := by
  intro l
  induction l with
  | nil => intro c t h; simp [dropSpaces] at h
  | cons d rest ih =>
    intro c t h
    by_cases hd : d = ' '
    · subst hd
      rw [show dropSpaces (' ' :: rest) = dropSpaces rest from rfl] at h
      exact List.mem_cons_of_mem _ (ih c t h)
    · rw [dropSpaces_cons_ne d rest hd] at h
      rw [List.head_eq_of_cons_eq h]
      exact List.mem_cons_self ..

theorem isCommentChars_of_head (l : List Char) (c : Char) (t : List Char)
    (h : dropSpaces l = c :: t) (hc : c ≠ '#') : isCommentChars l = false := by
  unfold isCommentChars
  rw [h]
  split
  · rename_i heq
    exact absurd (List.head_eq_of_cons_eq heq) hc
  · rfl

theorem isCommentChars_of_nil (l : List Char) (h : dropSpaces l = []) :
    isCommentChars l = false := by
  unfold isCommentChars
  rw [h]

theorem needsQuote_false_no_hash (s : String) (h : needsQuote s = false) :
    ∀ c ∈ s.data, c ≠ '#' := by
  intro c hc
  unfold needsQuote at h
  rw [List.any_eq_false] at h
  have := h c hc
  simp at this
  exact this.1

/-- Any line of the shape `<spaces><key>:<anything>` produced by the
comment-free emitter is not a comment line: a quoted key starts with a quote,
an unquoted key contains no `#`. -/
theorem isCommentChars_keyline_assoc (ind : Nat) (k : String) (more : List Char) :
    isCommentChars (pad ind ++ (quoteStr k ++ ':' :: more)) = false := by
  unfold pad
  by_cases hq : needsQuote k
  · have hqs : quoteStr k = '"' :: (escNl k.data ++ ['"']) := by
      unfold quoteStr; rw [if_pos hq]
    rw [hqs]
    have hshape : dropSpaces (List.replicate (2 * ind) ' ' ++
        (('"' :: (escNl k.data ++ ['"'])) ++ ':' :: more)) =
        '"' :: ((escNl k.data ++ ['"']) ++ ':' :: more) := by
      rw [dropSpaces_replicate, List.cons_append]
      exact dropSpaces_cons_ne _ _ (by decide)
    exact isCommentChars_of_head _ _ _ hshape (by decide)
  · have hqs : quoteStr k = k.data := by
      unfold quoteStr; rw [if_neg hq]
    rw [hqs]
    cases hd : dropSpaces k.data with
    | nil =>
      have hshape : dropSpaces (List.replicate (2 * ind) ' ' ++ (k.data ++ ':' :: more)) =
          ':' :: more := by
        rw [dropSpaces_replicate, dropSpaces_append_of_nil _ _ hd]
        exact dropSpaces_cons_ne _ _ (by decide)
      exact isCommentChars_of_head _ _ _ hshape (by decide)
    | cons c t =>
      have hshape : dropSpaces (List.replicate (2 * ind) ' ' ++ (k.data ++ ':' :: more)) =
          c :: (t ++ ':' :: more) := by
        rw [dropSpaces_replicate]
        exact dropSpaces_append_of_cons _ _ _ _ hd
      have hc : c ≠ '#' :=
        needsQuote_false_no_hash k (by simpa using hq) c (dropSpaces_head_mem _ _ _ hd)
      exact isCommentChars_of_head _ _ _ hshape hc

/-- The left-associated form in which the emitter builds key lines. -/
theorem isCommentChars_keyline (ind : Nat) (k : String) (more : List Char) :
    isCommentChars (pad ind ++ quoteStr k ++ ':' :: more) = false := by
  rw [List.append_assoc]
  exact isCommentChars_keyline_assoc ind k more

/-- Any line of the shape `<spaces>-<anything>` is not a comment line. -/
theorem isCommentChars_dashline (ind : Nat) (more : List Char) :
    isCommentChars (pad ind ++ '-' :: more) = false := by
  unfold pad
  have hshape : dropSpaces (List.replicate (2 * ind) ' ' ++ '-' :: more) = '-' :: more := by
    rw [dropSpaces_replicate]
    exact dropSpaces_cons_ne _ _ (by decide)
  exact isCommentChars_of_head _ _ _ hshape (by decide)

theorem natDigits_spec (n : Nat) :
    ∃ c t, natDigits n = c :: t ∧ c ≠ '#' ∧ c ≠ ' ' := by
  induction n using Nat.strong_induction_on with
  | _ n ih =>
    by_cases h : n < 10
    · rw [natDigits, dif_pos h]
      refine ⟨Nat.digitChar n, [], rfl, ?_, ?_⟩
      · have : ∀ m, m < 10 → Nat.digitChar m ≠ '#' := by decide
        exact this n h
      · have : ∀ m, m < 10 → Nat.digitChar m ≠ ' ' := by decide
        exact this n h
    · rw [natDigits, dif_neg h]
      obtain ⟨c, t, heq, h1, h2⟩ :=
        ih (n / 10) (Nat.div_lt_self (by omega) (by omega))
      exact ⟨c, t ++ [Nat.digitChar (n % 10)], by rw [heq]; rfl, h1, h2⟩

/-- A scalar rendered by the comment-free emitter never yields a comment
line on its own. -/
theorem isCommentChars_scalar (v : Value) :
    isCommentChars (scalarChars v) = false := by
  cases v with
  | vnull => decide
  | vbool b => cases b <;> decide
  | vint n =>
    cases n with
    | ofNat m =>
      obtain ⟨c, t, heq, h1, h2⟩ := natDigits_spec m
      rw [show scalarChars (.vint (Int.ofNat m)) = natDigits m from rfl, heq]
      exact isCommentChars_of_head _ _ _ (dropSpaces_cons_ne _ _ h2) h1
    | negSucc m =>
      rw [show scalarChars (.vint (Int.negSucc m)) = '-' :: natDigits (m + 1) from rfl]
      exact isCommentChars_of_head _ _ _ (dropSpaces_cons_ne _ _ (by decide)) (by decide)
  | vstr s =>
    show isCommentChars (quoteStr s) = false
    by_cases hq : needsQuote s
    · have hqs : quoteStr s = '"' :: (escNl s.data ++ ['"']) := by
        unfold quoteStr; rw [if_pos hq]
      rw [hqs]
      exact isCommentChars_of_head _ _ _ (dropSpaces_cons_ne _ _ (by decide)) (by decide)
    · have hqs : quoteStr s = s.data := by
        unfold quoteStr; rw [if_neg hq]
      rw [hqs]
      cases hd : dropSpaces s.data with
      | nil => exact isCommentChars_of_nil _ hd
      | cons c t =>
        exact isCommentChars_of_head _ _ _ hd
          (needsQuote_false_no_hash s (by simpa using hq) c (dropSpaces_head_mem _ _ _ hd))
  | varr es => rfl
  | vobj fs => rfl

mutual

/-- No line emitted for object fields is a standalone comment line. -/
theorem stringifyFields_commentFree (ind : Nat) (l : List (String × Value)) :
    ∀ line ∈ stringifyFields ind l, isCommentChars line = false := by
  match l with
  | [] => intro line h; simp [stringifyFields] at h
  | (k, v) :: rest =>
    intro line h
    cases v with
    | vobj fs =>
      cases fs with
      | nil =>
        simp only [stringifyFields, List.mem_append, List.mem_singleton] at h
        rcases h with rfl | h
        · exact isCommentChars_keyline ind k _
        · exact stringifyFields_commentFree ind rest line h
      | cons p fs2 =>
        simp only [stringifyFields, List.mem_append, List.mem_cons] at h
        rcases h with (rfl | h) | h
        · exact isCommentChars_keyline ind k _
        · exact stringifyFields_commentFree (ind + 1) (p :: fs2) line h
        · exact stringifyFields_commentFree ind rest line h
    | varr es =>
      cases es with
      | nil =>
        simp only [stringifyFields, List.mem_append, List.mem_singleton] at h
        rcases h with rfl | h
        · exact isCommentChars_keyline ind k _
        · exact stringifyFields_commentFree ind rest line h
      | cons e es2 =>
        simp only [stringifyFields, List.mem_append, List.mem_cons] at h
        rcases h with (rfl | h) | h
        · exact isCommentChars_keyline ind k _
        · exact stringifyElems_commentFree (ind + 1) (e :: es2) line h
        · exact stringifyFields_commentFree ind rest line h
    | vnull =>
      simp only [stringifyFields, List.mem_append, List.mem_singleton] at h
      rcases h with rfl | h
      · exact isCommentChars_keyline ind k _
      · exact stringifyFields_commentFree ind rest line h
    | vbool b =>
      simp only [stringifyFields, List.mem_append, List.mem_singleton] at h
      rcases h with rfl | h
      · exact isCommentChars_keyline ind k _
      · exact stringifyFields_commentFree ind rest line h
    | vint n =>
      simp only [stringifyFields, List.mem_append, List.mem_singleton] at h
      rcases h with rfl | h
      · exact isCommentChars_keyline ind k _
      · exact stringifyFields_commentFree ind rest line h
    | vstr s =>
      simp only [stringifyFields, List.mem_append, List.mem_singleton] at h
      rcases h with rfl | h
      · exact isCommentChars_keyline ind k _
      · exact stringifyFields_commentFree ind rest line h
termination_by (sizeOf l, 0)

/-- No line emitted for array elements is a standalone comment line. -/
theorem stringifyElems_commentFree (ind : Nat) (l : List Value) :
    ∀ line ∈ stringifyElems ind l, isCommentChars line = false := by
  match l with
  | [] => intro line h; simp [stringifyElems] at h
  | v :: rest =>
    intro line h
    cases v with
    | vobj fs =>
      cases fs with
      | nil =>
        simp only [stringifyElems, List.mem_append, List.mem_singleton] at h
        rcases h with rfl | h
        · exact isCommentChars_dashline ind _
        · exact stringifyElems_commentFree ind rest line h
      | cons p fs2 =>
        simp only [stringifyElems, List.mem_append, List.mem_cons] at h
        rcases h with (rfl | h) | h
        · exact isCommentChars_dashline ind _
        · exact stringifyFields_commentFree (ind + 1) (p :: fs2) line h
        · exact stringifyElems_commentFree ind rest line h
    | varr es =>
      cases es with
      | nil =>
        simp only [stringifyElems, List.mem_append, List.mem_singleton] at h
        rcases h with rfl | h
        · exact isCommentChars_dashline ind _
        · exact stringifyElems_commentFree ind rest line h
      | cons e es2 =>
        simp only [stringifyElems, List.mem_append, List.mem_cons] at h
        rcases h with (rfl | h) | h
        · exact isCommentChars_dashline ind _
        · exact stringifyElems_commentFree (ind + 1) (e :: es2) line h
        · exact stringifyElems_commentFree ind rest line h
    | vnull =>
      simp only [stringifyElems, List.mem_append, List.mem_singleton] at h
      rcases h with rfl | h
      · exact isCommentChars_dashline ind _
      · exact stringifyElems_commentFree ind rest line h
    | vbool b =>
      simp only [stringifyElems, List.mem_append, List.mem_singleton] at h
      rcases h with rfl | h
      · exact isCommentChars_dashline ind _
      · exact stringifyElems_commentFree ind rest line h
    | vint n =>
      simp only [stringifyElems, List.mem_append, List.mem_singleton] at h
      rcases h with rfl | h
      · exact isCommentChars_dashline ind _
      · exact stringifyElems_commentFree ind rest line h
    | vstr s =>
      simp only [stringifyElems, List.mem_append, List.mem_singleton] at h
      rcases h with rfl | h
      · exact isCommentChars_dashline ind _
      · exact stringifyElems_commentFree ind rest line h
termination_by (sizeOf l, 0)

end

/-- C8: with no cached Document (reset or never parsed), `serialize` emits the
fresh `stringify` representation: deterministic (a function of the ConfigValue
alone, so equal values serialize to equal text), with fields in insertion
order and two-space indentation by construction, and comment-free — no
emitted line is a standalone comment line. -/
theorem c8_fresh_serialize_comment_free (config : Value) :
    serializeModel none config = stringifyLines config
  ∧ (∀ d, serializeModel (resetModel d) config = stringifyLines config)
  ∧ (∀ line, line ∈ stringifyChars config → isCommentChars line = false)
  ∧ (∀ config2, config = config2 →
       serializeModel none config = serializeModel none config2) := by
  refine ⟨rfl, fun d => rfl, ?_, fun c2 he => by rw [he]⟩
  intro line h
  cases config with
  | vobj fs =>
    cases fs with
    | nil =>
      simp only [stringifyChars, List.mem_singleton] at h
      rw [h]
      decide
    | cons p rest =>
      simp only [stringifyChars] at h
      exact stringifyFields_commentFree 0 (p :: rest) line h
  | varr es =>
    cases es with
    | nil =>
      simp only [stringifyChars, List.mem_singleton] at h
      rw [h]
      decide
    | cons e rest =>
      simp only [stringifyChars] at h
      exact stringifyElems_commentFree 0 (e :: rest) line h
  | vnull =>
    simp only [stringifyChars, List.mem_singleton] at h
    rw [h]
    exact isCommentChars_scalar .vnull
  | vbool b =>
    simp only [stringifyChars, List.mem_singleton] at h
    rw [h]
    exact isCommentChars_scalar (.vbool b)
  | vint n =>
    simp only [stringifyChars, List.mem_singleton] at h
    rw [h]
    exact isCommentChars_scalar (.vint n)
  | vstr s =>
    simp only [stringifyChars, List.mem_singleton] at h
    rw [h]
    exact isCommentChars_scalar (.vstr s)

/-- Witness for C8 on a one-field config: the reset-state serialization equals
the fresh emission, and the emitted key line is not a comment line. -/
theorem c8_fresh_serialize_comment_free_witness :
    serializeModel none (.vobj [("author", .vstr "A")])
      = stringifyLines (.vobj [("author", .vstr "A")])
  ∧ isCommentChars (pad 0 ++ quoteStr "author" ++ ':' :: ' ' :: scalarChars (.vstr "A"))
      = false := by
  constructor
  · exact (c8_fresh_serialize_comment_free (.vobj [("author", .vstr "A")])).1
  · exact (c8_fresh_serialize_comment_free (.vobj [("author", .vstr "A")])).2.2.1
      (pad 0 ++ quoteStr "author" ++ ':' :: ' ' :: scalarChars (.vstr "A"))
      (by simp [stringifyChars, stringifyFields])
